import Mathlib

/-!
Verification development for the middle/back end of a small C compiler
(semantic analysis, TACKY three-address IR lowering, and a three-pass
instruction selection / stack-slot allocation / legalization backend).

Every definition below is a shallow embedding of the corresponding Rust
item, with the source file and symbol named in its doc comment.
`HashMap<String, _>` is modelled as an association list with
insert-overwrite semantics; `Vec` as `List` (same element order);
`Result<T, String>` as `Except String T`; panics as `Option` `none`.
-/

set_option maxHeartbeats 1000000

/-- A single-quote character as a string (used to build error messages
that quote identifiers, without apostrophes in string literals). -/
def sQuote : String := String.singleton (Char.ofNat 39)

namespace Tacky

/-- `src/ir/tacky.rs`: `Val = Constant(i32) | Var(String)`. -/
inductive Val where
  | constant (i : Int)
  | var (name : String)
deriving DecidableEq, Repr

end Tacky

namespace Asm

/-- `src/ir/assembly.rs`: `Register`. -/
inductive Register where
  | AX | CX | DX | DI | SI | R8 | R9 | R10 | R11
deriving DecidableEq, Repr

/-- `src/ir/assembly.rs`: `UnaryOperator` (assembly level). -/
inductive UnaryOperator where
  | neg | wnot
deriving DecidableEq, Repr

/-- `src/ir/assembly.rs`: `BinaryOperator` (assembly level). -/
inductive BinaryOperator where
  | add | subtract | multiply
deriving DecidableEq, Repr

/-- `src/ir/assembly.rs`: `CondCode`. -/
inductive CondCode where
  | E | NE | G | GE | L | LE
deriving DecidableEq, Repr

/-- `src/ir/assembly.rs`: `Operand = Imm(i32) | Reg | Pseudo(String) | Stack(i32)`. -/
inductive Operand where
  | imm (value : Int)
  | reg (r : Register)
  | pseudo (name : String)
  | stack (offset : Int)
deriving DecidableEq, Repr

/-- `src/ir/assembly.rs`: `Instruction`. -/
inductive Instruction where
  | mov (src dst : Operand)
  | unary (op : UnaryOperator) (operand : Operand)
  | binary (op : BinaryOperator) (src dst : Operand)
  | cmp (src1 src2 : Operand)
  | idiv (operand : Operand)
  | cdq
  | ret
  | jmp (target : String)
  | jmpCC (cc : CondCode) (target : String)
  | setCC (cc : CondCode) (operand : Operand)
  | label (name : String)
  | allocateStack (bytes : Nat)
  | deallocateStack (bytes : Nat)
  | push (operand : Operand)
  | call (name : String)
deriving DecidableEq, Repr

/-- `src/backend/asm_gen.rs` `convert_funcall`: the fixed argument-register
sequence `[DI, SI, DX, CX, R8, R9]`. -/
def argRegisters : List Register :=
  [Register.DI, Register.SI, Register.DX, Register.CX, Register.R8, Register.R9]

/-- `src/backend/asm_gen.rs` `convert_tacky_val`. -/
def convertTackyVal : Tacky.Val → Operand
  | Tacky.Val.constant i => Operand.imm i
  | Tacky.Val.var name => Operand.pseudo name

/-- The instructions `convert_funcall` pushes for one stack argument:
`Imm`/`Reg` operands are pushed directly, anything else (a pseudo, or
later a stack slot) is routed through `AX` first. -/
def pushStackArg (arg : Tacky.Val) : List Instruction :=
  match convertTackyVal arg with
  | Operand.imm v => [Instruction.push (Operand.imm v)]
  | Operand.reg r => [Instruction.push (Operand.reg r)]
  | a => [Instruction.mov a (Operand.reg Register.AX),
          Instruction.push (Operand.reg Register.AX)]

/-- `src/backend/asm_gen.rs` `convert_funcall` (lines 131–209): lowering of
a TACKY `FunCall` to assembly instructions, emitted in source order:
stack-alignment padding, register-argument moves, reversed stack-argument
pushes, the call, stack cleanup, and the return-value copy. -/
def convert_funcall (name : String) (args : List Tacky.Val) (dst : Tacky.Val) :
    List Instruction :=
  let register_args := args.take 6
  let stack_args := args.drop 6
  let stack_padding : Nat := if stack_args ≠ [] ∧ stack_args.length % 2 ≠ 0 then 8 else 0
  let bytes_to_remove : Nat := stack_args.length * 8 + stack_padding
  (if stack_padding > 0 then [Instruction.allocateStack stack_padding] else []) ++
  (List.zipWith (fun arg r => Instruction.mov (convertTackyVal arg) (Operand.reg r))
      register_args argRegisters) ++
  (stack_args.reverse.flatMap pushStackArg) ++
  [Instruction.call name] ++
  (if bytes_to_remove > 0 then [Instruction.deallocateStack bytes_to_remove] else []) ++
  [Instruction.mov (Operand.reg Register.AX) (convertTackyVal dst)]

/-- Bytes a single instruction pushes onto the stack at the call site:
8 per `Push`, plus explicit `AllocateStack` padding. -/
def pushedBytes : Instruction → Nat
  | Instruction.push _ => 8
  | Instruction.allocateStack b => b
  | _ => 0

/-- Total bytes pushed by an instruction sequence. -/
def totalPushedBytes (l : List Instruction) : Nat :=
  (l.map pushedBytes).sum

/-- Bytes deallocated by an instruction sequence. -/
def totalDeallocatedBytes (l : List Instruction) : Nat :=
  (l.map (fun i => match i with
    | Instruction.deallocateStack b => b
    | _ => 0)).sum

end Asm

namespace Asm

/-- Each stack argument is pushed with exactly 8 bytes. -/
theorem totalPushedBytes_pushStackArg (a : Tacky.Val) :
    totalPushedBytes (pushStackArg a) = 8 := by
  cases a <;> simp [pushStackArg, convertTackyVal, totalPushedBytes, pushedBytes]

theorem totalPushedBytes_append (l1 l2 : List Instruction) :
    totalPushedBytes (l1 ++ l2) = totalPushedBytes l1 + totalPushedBytes l2 := by
  simp [totalPushedBytes]

theorem totalPushedBytes_flatMap_pushStackArg (l : List Tacky.Val) :
    totalPushedBytes (l.flatMap pushStackArg) = 8 * l.length := by
  induction l with
  | nil => simp [totalPushedBytes]
  | cons a t ih =>
      simp only [List.flatMap_cons, totalPushedBytes_append, ih,
        totalPushedBytes_pushStackArg, List.length_cons]
      ring

/-- Register-argument moves push no bytes. -/
theorem totalPushedBytes_zipWith_movs (l : List Tacky.Val) (rs : List Register) :
    totalPushedBytes (List.zipWith
      (fun arg r => Instruction.mov (convertTackyVal arg) (Operand.reg r)) l rs) = 0 := by
  induction l generalizing rs with
  | nil => simp [totalPushedBytes]
  | cons a t ih =>
      cases rs with
      | nil => simp [totalPushedBytes]
      | cons r rt =>
          simp only [List.zipWith_cons_cons]
          show totalPushedBytes
            (Instruction.mov (convertTackyVal a) (Operand.reg r) ::
              List.zipWith _ t rt) = 0
          simp [totalPushedBytes, pushedBytes] at ih ⊢
          exact ih rt

end Asm

namespace Asm

/-- Spec-side: number of stack arguments of a lowered call. -/
def specStackArgs (args : List Tacky.Val) : List Tacky.Val := args.drop 6

/-- Spec-side: the 8-byte alignment padding demanded by the spec — present
exactly when the stack-argument count is odd. -/
def specPadding (args : List Tacky.Val) : Nat :=
  if (specStackArgs args).length % 2 = 1 then 8 else 0

/-- Spec-side: total bytes the call pushes (8 per stack argument plus padding). -/
def specCallBytes (args : List Tacky.Val) : Nat :=
  (specStackArgs args).length * 8 + specPadding args

/-- Spec-side (from the spec's words): the instruction sequence the calling
convention demands — optional padding allocation, moves of the first six
arguments into the fixed register sequence, remaining arguments pushed in
reverse order, the call, deallocation of exactly the pushed bytes, and the
copy of the accumulator into the destination. -/
def specCallCode (name : String) (args : List Tacky.Val) (dst : Tacky.Val) :
    List Instruction :=
  (if specPadding args > 0 then [Instruction.allocateStack (specPadding args)] else []) ++
  List.zipWith (fun arg r => Instruction.mov (convertTackyVal arg) (Operand.reg r))
    (args.take 6) argRegisters ++
  (specStackArgs args).reverse.flatMap pushStackArg ++
  [Instruction.call name] ++
  (if specCallBytes args > 0 then [Instruction.deallocateStack (specCallBytes args)] else []) ++
  [Instruction.mov (Operand.reg Register.AX) (convertTackyVal dst)]

theorem specPadding_eq_source (args : List Tacky.Val) :
    specPadding args =
      (if args.drop 6 ≠ [] ∧ (args.drop 6).length % 2 ≠ 0 then 8 else 0) := by
  unfold specPadding specStackArgs
  rcases h : (args.drop 6) with _ | ⟨a, t⟩
  · simp
  · simp only [ne_eq, reduceCtorEq, not_false_eq_true, true_and]
    rcases Nat.even_or_odd (a :: t).length with he | ho
    · have h2 : (a :: t).length % 2 = 0 := Nat.even_iff.mp he
      simp [h2]
    · have h2 : (a :: t).length % 2 = 1 := Nat.odd_iff.mp ho
      simp [h2]

/-- C2: `convert_funcall` realizes the calling convention: its output is
exactly the spec sequence (first six arguments into `DI, SI, DX, CX, R8,
R9`; later arguments pushed in reverse; one 8-byte padding allocation
exactly when the stack-argument count is odd; deallocation of exactly the
pushed bytes after the call; return value copied from `AX` into the
destination), the padding+argument total is 16-byte aligned, and the bytes
pushed before the call equal the bytes deallocated after it. -/
theorem convert_funcall_realizes_calling_convention
    (name : String) (args : List Tacky.Val) (dst : Tacky.Val) :
    convert_funcall name args dst = specCallCode name args dst
    ∧ (specPadding args = 8 ↔ (args.drop 6).length % 2 = 1)
    ∧ specCallBytes args % 16 = 0
    ∧ totalPushedBytes
        ((if specPadding args > 0 then [Instruction.allocateStack (specPadding args)] else []) ++
          List.zipWith (fun arg r => Instruction.mov (convertTackyVal arg) (Operand.reg r))
            (args.take 6) argRegisters ++
          (specStackArgs args).reverse.flatMap pushStackArg) = specCallBytes args
    ∧ totalDeallocatedBytes
        ((if specCallBytes args > 0 then [Instruction.deallocateStack (specCallBytes args)]
          else []) ++
          [Instruction.mov (Operand.reg Register.AX) (convertTackyVal dst)]) =
        specCallBytes args := by
  refine ⟨?_, ?_, ?_, ?_, ?_⟩
  · unfold convert_funcall specCallCode specCallBytes specStackArgs
    rw [specPadding_eq_source]
  · unfold specPadding specStackArgs
    split <;> simp_all
  · unfold specCallBytes specPadding specStackArgs
    split <;> omega
  · rw [totalPushedBytes_append, totalPushedBytes_append,
      totalPushedBytes_zipWith_movs, totalPushedBytes_flatMap_pushStackArg]
    unfold specCallBytes
    split
    · simp [totalPushedBytes, pushedBytes, specStackArgs]
      ring
    · rename_i h
      have h0 : specPadding args = 0 := by
        unfold specPadding at h ⊢
        omega
      simp [totalPushedBytes, h0, specStackArgs]
      ring
  · unfold specCallBytes
    split
    · simp [totalDeallocatedBytes, specCallBytes]
    · rename_i h
      simp [totalDeallocatedBytes, specCallBytes]
      omega

end Asm

/-- Association-list lookup (models `HashMap::get`). -/
def alookup {α : Type} : List (String × α) → String → Option α
  | [], _ => none
  | (k, v) :: t, key => if k = key then some v else alookup t key

namespace Asm

/-- Pass-2 state: the `var_map` from pseudo-register names to stack offsets
and the running `current_offset` (`src/backend/asm_gen.rs`,
`replace_pseudo_with_stack_pass2`). -/
abbrev P2St := List (String × Int) × Int

/-- `src/backend/asm_gen.rs` `assign_stack_offset`: if the operand is a
pseudo-register, look its name up in `var_map`; on a miss decrement
`current_offset` by 4 and record the new offset (HashMap `entry().or_insert_with`). -/
def assign_stack_offset (op : Operand) (st : P2St) : Operand × P2St :=
  match op with
  | Operand.pseudo name =>
      match alookup st.1 name with
      | some offset => (Operand.stack offset, st)
      | none =>
          let offset := st.2 - 4
          (Operand.stack offset, ((name, offset) :: st.1, offset))
  | _ => (op, st)

/-- One instruction of Pass 2: apply `assign_stack_offset` to every operand
position the source visits (`Mov`, `Unary`, `Binary`, `Idiv`, `Cmp`,
`SetCC`, `Push`; all other instructions carry no operands). -/
def replaceInstrPass2 (inst : Instruction) (st : P2St) : Instruction × P2St :=
  match inst with
  | Instruction.mov src dst =>
      let (src', st1) := assign_stack_offset src st
      let (dst', st2) := assign_stack_offset dst st1
      (Instruction.mov src' dst', st2)
  | Instruction.unary op o =>
      let (o', st1) := assign_stack_offset o st
      (Instruction.unary op o', st1)
  | Instruction.binary op src dst =>
      let (src', st1) := assign_stack_offset src st
      let (dst', st2) := assign_stack_offset dst st1
      (Instruction.binary op src' dst', st2)
  | Instruction.idiv o =>
      let (o', st1) := assign_stack_offset o st
      (Instruction.idiv o', st1)
  | Instruction.cmp s1 s2 =>
      let (s1', st1) := assign_stack_offset s1 st
      let (s2', st2) := assign_stack_offset s2 st1
      (Instruction.cmp s1' s2', st2)
  | Instruction.setCC cc o =>
      let (o', st1) := assign_stack_offset o st
      (Instruction.setCC cc o', st1)
  | Instruction.push o =>
      let (o', st1) := assign_stack_offset o st
      (Instruction.push o', st1)
  | i => (i, st)

/-- The Pass-2 loop over the instruction list. -/
def pass2Go : List Instruction → P2St → List Instruction × P2St
  | [], st => ([], st)
  | i :: t, st =>
      let (i', st1) := replaceInstrPass2 i st
      let (t', st2) := pass2Go t st1
      (i' :: t', st2)

/-- `src/backend/asm_gen.rs` `replace_pseudo_with_stack_pass2`: rewrite all
pseudo-register operands of a function to stack slots, returning the new
instruction list and `current_offset.abs()` as the bytes needed.  (The
source's `Result` is always `Ok`.) -/
def replace_pseudo_with_stack_pass2 (instrs : List Instruction) :
    List Instruction × Nat :=
  let (out, st) := pass2Go instrs ([], 0)
  (out, st.2.natAbs)

/-- An operand is not a pseudo-register. -/
def notPseudoOp : Operand → Prop
  | Operand.pseudo _ => False
  | _ => True

/-- The pseudo-register names an operand mentions. -/
def opPseudoNames : Operand → List String
  | Operand.pseudo n => [n]
  | _ => []

/-- The pseudo-register names an instruction mentions (one entry per
operand occurrence). -/
def instrPseudoNames : Instruction → List String
  | Instruction.mov src dst => opPseudoNames src ++ opPseudoNames dst
  | Instruction.unary _ o => opPseudoNames o
  | Instruction.binary _ src dst => opPseudoNames src ++ opPseudoNames dst
  | Instruction.cmp s1 s2 => opPseudoNames s1 ++ opPseudoNames s2
  | Instruction.idiv o => opPseudoNames o
  | Instruction.setCC _ o => opPseudoNames o
  | Instruction.push o => opPseudoNames o
  | _ => []

/-- Pseudo-register names mentioned anywhere in an instruction list. -/
def pseudoNamesList (l : List Instruction) : List String :=
  l.flatMap instrPseudoNames

/-- No instruction in the list mentions a pseudo-register. -/
def noPseudoList (l : List Instruction) : Prop :=
  pseudoNamesList l = []

/-- Substitution of pseudo-registers by their mapped stack slots. -/
def substOp (m : List (String × Int)) : Operand → Operand
  | Operand.pseudo n =>
      match alookup m n with
      | some offset => Operand.stack offset
      | none => Operand.pseudo n
  | o => o

/-- `substOp` applied at every operand position of an instruction. -/
def substInstr (m : List (String × Int)) : Instruction → Instruction
  | Instruction.mov src dst => Instruction.mov (substOp m src) (substOp m dst)
  | Instruction.unary op o => Instruction.unary op (substOp m o)
  | Instruction.binary op src dst => Instruction.binary op (substOp m src) (substOp m dst)
  | Instruction.cmp s1 s2 => Instruction.cmp (substOp m s1) (substOp m s2)
  | Instruction.idiv o => Instruction.idiv (substOp m o)
  | Instruction.setCC cc o => Instruction.setCC cc (substOp m o)
  | Instruction.push o => Instruction.push (substOp m o)
  | i => i

/-- `m'` contains every binding of `m`. -/
def MapExtends (m m' : List (String × Int)) : Prop :=
  ∀ n v, alookup m n = some v → alookup m' n = some v

/-- Pass-2 state invariant: the offset counts 4 bytes per distinct name,
all recorded offsets are ≥ the current offset, and names and offsets are
pairwise distinct. -/
def P2Inv (st : P2St) : Prop :=
  st.2 = -4 * st.1.length ∧
  (∀ p ∈ st.1, st.2 ≤ p.2) ∧
  (st.1.map Prod.fst).Nodup ∧
  (st.1.map Prod.snd).Nodup

end Asm

theorem alookup_cons {α : Type} (k : String) (v : α) (t : List (String × α)) (key : String) :
    alookup ((k, v) :: t) key = if k = key then some v else alookup t key := rfl


theorem alookup_eq_none_iff {α : Type} (m : List (String × α)) (k : String) :
    alookup m k = none ↔ k ∉ m.map Prod.fst := by
  induction m with
  | nil => simp [alookup]
  | cons p t ih =>
      obtain ⟨pk, pv⟩ := p
      rw [alookup_cons]
      by_cases h : pk = k
      · subst h
        simp
      · rw [if_neg h, ih]
        simp only [List.map_cons, List.mem_cons, not_or]
        constructor
        · intro hn
          exact ⟨fun heq => h heq.symm, hn⟩
        · intro hn
          exact hn.2

namespace Asm

theorem mapExtends_refl (m : List (String × Int)) : MapExtends m m := fun _ _ h => h

theorem mapExtends_trans {m1 m2 m3 : List (String × Int)}
    (h1 : MapExtends m1 m2) (h2 : MapExtends m2 m3) : MapExtends m1 m3 :=
  fun n v h => h2 n v (h1 n v h)

theorem substOp_stable {m m' : List (String × Int)} (hext : MapExtends m m')
    (op : Operand) (h : ∀ n ∈ opPseudoNames op, (alookup m n).isSome) :
    substOp m op = substOp m' op := by
  cases op with
  | pseudo n =>
      have hs : (alookup m n).isSome := h n (by simp [opPseudoNames])
      obtain ⟨v, hv⟩ := Option.isSome_iff_exists.mp hs
      simp [substOp, hv, hext n v hv]
  | imm v => rfl
  | reg r => rfl
  | stack o => rfl

theorem substInstr_stable {m m' : List (String × Int)} (hext : MapExtends m m')
    (i : Instruction) (h : ∀ n ∈ instrPseudoNames i, (alookup m n).isSome) :
    substInstr m i = substInstr m' i := by
  cases i <;>
    simp only [substInstr, instrPseudoNames] at h ⊢ <;>
    first
      | rfl
      | (rw [substOp_stable hext _ (fun n hn => h n hn)])
      | (rw [substOp_stable hext _ (fun n hn => h n (by simp [hn])),
          substOp_stable hext _ (fun n hn => h n (by simp [hn]))])

/-- Core single-operand specification of `assign_stack_offset`. -/
theorem assign_stack_offset_spec (op : Operand) (st : P2St) (h : P2Inv st) :
    P2Inv (assign_stack_offset op st).2 ∧
    MapExtends st.1 (assign_stack_offset op st).2.1 ∧
    (∀ n ∈ opPseudoNames op, (alookup (assign_stack_offset op st).2.1 n).isSome) ∧
    (assign_stack_offset op st).1 = substOp (assign_stack_offset op st).2.1 op ∧
    opPseudoNames (assign_stack_offset op st).1 = [] ∧
    (∀ n, (alookup (assign_stack_offset op st).2.1 n).isSome ↔
      ((alookup st.1 n).isSome ∨ n ∈ opPseudoNames op)) := by
  obtain ⟨m, off⟩ := st
  obtain ⟨hoff, hle, hkeys, hvals⟩ := h
  simp only at hoff hle hkeys hvals
  cases op with
  | pseudo n =>
      cases hl : alookup m n with
      | some v =>
          have hred : assign_stack_offset (Operand.pseudo n) (m, off) =
              (Operand.stack v, (m, off)) := by
            simp [assign_stack_offset, hl]
          rw [hred]
          refine ⟨⟨hoff, hle, hkeys, hvals⟩, mapExtends_refl m, ?_, ?_, ?_, ?_⟩
          · intro n' hn'
            simp only [opPseudoNames, List.mem_singleton] at hn'
            subst hn'
            simp [hl]
          · simp [substOp, hl]
          · simp [opPseudoNames]
          · intro n'
            simp only [opPseudoNames, List.mem_singleton]
            constructor
            · intro hs
              exact Or.inl hs
            · rintro (hs | rfl)
              · exact hs
              · simp [hl]
      | none =>
          have hnotin : n ∉ m.map Prod.fst := (alookup_eq_none_iff m n).mp hl
          have hred : assign_stack_offset (Operand.pseudo n) (m, off) =
              (Operand.stack (off - 4), ((n, off - 4) :: m, off - 4)) := by
            simp [assign_stack_offset, hl]
          rw [hred]
          refine ⟨⟨?_, ?_, ?_, ?_⟩, ?_, ?_, ?_, ?_, ?_⟩
          · simp only [List.length_cons]
            push_cast
            omega
          · intro p hp
            rcases List.mem_cons.mp hp with rfl | hp'
            · simp
            · have := hle p hp'
              simp only
              omega
          · simp only [List.map_cons, List.nodup_cons]
            exact ⟨hnotin, hkeys⟩
          · simp only [List.map_cons, List.nodup_cons]
            refine ⟨?_, hvals⟩
            intro hmem
            obtain ⟨p, hp, hp2⟩ := List.mem_map.mp hmem
            have := hle p hp
            omega
          · intro n' v hv
            rw [alookup_cons]
            split
            · rename_i heq
              subst heq
              rw [hl] at hv
              exact absurd hv (by simp)
            · exact hv
          · intro n' hn'
            simp only [opPseudoNames, List.mem_singleton] at hn'
            subst hn'
            simp [alookup_cons]
          · simp [substOp, alookup_cons]
          · simp [opPseudoNames]
          · intro n'
            rw [alookup_cons]
            by_cases heq : n = n'
            · subst heq
              simp [hl, opPseudoNames]
            · rw [if_neg heq]
              simp [opPseudoNames, Ne.symm heq]
  | imm v =>
      exact ⟨⟨hoff, hle, hkeys, hvals⟩, mapExtends_refl m, by simp [opPseudoNames],
        rfl, rfl, by simp [assign_stack_offset, opPseudoNames]⟩
  | reg r =>
      exact ⟨⟨hoff, hle, hkeys, hvals⟩, mapExtends_refl m, by simp [opPseudoNames],
        rfl, rfl, by simp [assign_stack_offset, opPseudoNames]⟩
  | stack o =>
      exact ⟨⟨hoff, hle, hkeys, hvals⟩, mapExtends_refl m, by simp [opPseudoNames],
        rfl, rfl, by simp [assign_stack_offset, opPseudoNames]⟩

end Asm

namespace Asm

theorem isSome_of_mapExtends {m m' : List (String × Int)} (hext : MapExtends m m')
    {n : String} (h : (alookup m n).isSome) : (alookup m' n).isSome := by
  obtain ⟨v, hv⟩ := Option.isSome_iff_exists.mp h
  simp [hext n v hv]

/-- Two sequential `assign_stack_offset` calls (the `src`/`dst` pattern). -/
theorem pass2_two_op_core (a b : Operand) (st : P2St) (h : P2Inv st) :
    P2Inv (assign_stack_offset b (assign_stack_offset a st).2).2 ∧
    MapExtends st.1 (assign_stack_offset b (assign_stack_offset a st).2).2.1 ∧
    (∀ n ∈ opPseudoNames a ++ opPseudoNames b,
      (alookup (assign_stack_offset b (assign_stack_offset a st).2).2.1 n).isSome) ∧
    (assign_stack_offset a st).1 =
      substOp (assign_stack_offset b (assign_stack_offset a st).2).2.1 a ∧
    (assign_stack_offset b (assign_stack_offset a st).2).1 =
      substOp (assign_stack_offset b (assign_stack_offset a st).2).2.1 b ∧
    opPseudoNames (assign_stack_offset a st).1 = [] ∧
    opPseudoNames (assign_stack_offset b (assign_stack_offset a st).2).1 = [] ∧
    (∀ n, (alookup (assign_stack_offset b (assign_stack_offset a st).2).2.1 n).isSome ↔
      ((alookup st.1 n).isSome ∨ n ∈ opPseudoNames a ++ opPseudoNames b)) := by
  obtain ⟨h1inv, h1ext, h1names, h1sub, h1clean, h1iff⟩ := assign_stack_offset_spec a st h
  obtain ⟨h2inv, h2ext, h2names, h2sub, h2clean, h2iff⟩ :=
    assign_stack_offset_spec b (assign_stack_offset a st).2 h1inv
  refine ⟨h2inv, mapExtends_trans h1ext h2ext, ?_, ?_, h2sub, h1clean, h2clean, ?_⟩
  · intro n hn
    rcases List.mem_append.mp hn with hna | hnb
    · exact isSome_of_mapExtends h2ext (h1names n hna)
    · exact h2names n hnb
  · rw [h1sub]
    exact substOp_stable h2ext a h1names
  · intro n
    rw [h2iff n, h1iff n, List.mem_append]
    tauto

/-- Lifting of the single-operand spec to one full instruction of Pass 2. -/
theorem replaceInstrPass2_spec (i : Instruction) (st : P2St) (h : P2Inv st) :
    P2Inv (replaceInstrPass2 i st).2 ∧
    MapExtends st.1 (replaceInstrPass2 i st).2.1 ∧
    (∀ n ∈ instrPseudoNames i, (alookup (replaceInstrPass2 i st).2.1 n).isSome) ∧
    (replaceInstrPass2 i st).1 = substInstr (replaceInstrPass2 i st).2.1 i ∧
    instrPseudoNames (replaceInstrPass2 i st).1 = [] ∧
    (∀ n, (alookup (replaceInstrPass2 i st).2.1 n).isSome ↔
      ((alookup st.1 n).isSome ∨ n ∈ instrPseudoNames i)) := by
  cases i with
  | mov src dst =>
      obtain ⟨hinv, hext, hnames, hsa, hsb, hca, hcb, hiff⟩ := pass2_two_op_core src dst st h
      exact ⟨hinv, hext, hnames, by simp only [replaceInstrPass2, substInstr, hsa, hsb],
        by simp only [replaceInstrPass2, instrPseudoNames, hca, hcb, List.append_nil], hiff⟩
  | binary op src dst =>
      obtain ⟨hinv, hext, hnames, hsa, hsb, hca, hcb, hiff⟩ := pass2_two_op_core src dst st h
      exact ⟨hinv, hext, hnames, by simp only [replaceInstrPass2, substInstr, hsa, hsb],
        by simp only [replaceInstrPass2, instrPseudoNames, hca, hcb, List.append_nil], hiff⟩
  | cmp s1 s2 =>
      obtain ⟨hinv, hext, hnames, hsa, hsb, hca, hcb, hiff⟩ := pass2_two_op_core s1 s2 st h
      exact ⟨hinv, hext, hnames, by simp only [replaceInstrPass2, substInstr, hsa, hsb],
        by simp only [replaceInstrPass2, instrPseudoNames, hca, hcb, List.append_nil], hiff⟩
  | unary op o =>
      obtain ⟨hinv, hext, hnames, hsub, hclean, hiff⟩ := assign_stack_offset_spec o st h
      exact ⟨hinv, hext, hnames, by simp only [replaceInstrPass2, substInstr, hsub],
        by simp only [replaceInstrPass2, instrPseudoNames, hclean], hiff⟩
  | idiv o =>
      obtain ⟨hinv, hext, hnames, hsub, hclean, hiff⟩ := assign_stack_offset_spec o st h
      exact ⟨hinv, hext, hnames, by simp only [replaceInstrPass2, substInstr, hsub],
        by simp only [replaceInstrPass2, instrPseudoNames, hclean], hiff⟩
  | setCC cc o =>
      obtain ⟨hinv, hext, hnames, hsub, hclean, hiff⟩ := assign_stack_offset_spec o st h
      exact ⟨hinv, hext, hnames, by simp only [replaceInstrPass2, substInstr, hsub],
        by simp only [replaceInstrPass2, instrPseudoNames, hclean], hiff⟩
  | push o =>
      obtain ⟨hinv, hext, hnames, hsub, hclean, hiff⟩ := assign_stack_offset_spec o st h
      exact ⟨hinv, hext, hnames, by simp only [replaceInstrPass2, substInstr, hsub],
        by simp only [replaceInstrPass2, instrPseudoNames, hclean], hiff⟩
  | cdq =>
      exact ⟨h, mapExtends_refl _, by simp [instrPseudoNames], rfl, rfl,
        by simp [replaceInstrPass2, instrPseudoNames]⟩
  | ret =>
      exact ⟨h, mapExtends_refl _, by simp [instrPseudoNames], rfl, rfl,
        by simp [replaceInstrPass2, instrPseudoNames]⟩
  | jmp t =>
      exact ⟨h, mapExtends_refl _, by simp [instrPseudoNames], rfl, rfl,
        by simp [replaceInstrPass2, instrPseudoNames]⟩
  | jmpCC cc t =>
      exact ⟨h, mapExtends_refl _, by simp [instrPseudoNames], rfl, rfl,
        by simp [replaceInstrPass2, instrPseudoNames]⟩
  | label nm =>
      exact ⟨h, mapExtends_refl _, by simp [instrPseudoNames], rfl, rfl,
        by simp [replaceInstrPass2, instrPseudoNames]⟩
  | allocateStack b =>
      exact ⟨h, mapExtends_refl _, by simp [instrPseudoNames], rfl, rfl,
        by simp [replaceInstrPass2, instrPseudoNames]⟩
  | deallocateStack b =>
      exact ⟨h, mapExtends_refl _, by simp [instrPseudoNames], rfl, rfl,
        by simp [replaceInstrPass2, instrPseudoNames]⟩
  | call nm =>
      exact ⟨h, mapExtends_refl _, by simp [instrPseudoNames], rfl, rfl,
        by simp [replaceInstrPass2, instrPseudoNames]⟩

end Asm

namespace Asm

/-- The Pass-2 loop: invariant preservation, faithful substitution by the
final map, and characterization of the final map's domain. -/
theorem pass2Go_spec (l : List Instruction) (st : P2St) (h : P2Inv st) :
    P2Inv (pass2Go l st).2 ∧
    MapExtends st.1 (pass2Go l st).2.1 ∧
    (∀ n ∈ pseudoNamesList l, (alookup (pass2Go l st).2.1 n).isSome) ∧
    (pass2Go l st).1 = l.map (substInstr (pass2Go l st).2.1) ∧
    noPseudoList (pass2Go l st).1 ∧
    (∀ n, (alookup (pass2Go l st).2.1 n).isSome ↔
      ((alookup st.1 n).isSome ∨ n ∈ pseudoNamesList l)) := by
  induction l generalizing st with
  | nil =>
      exact ⟨h, mapExtends_refl _, by simp [pseudoNamesList], rfl,
        by simp [pass2Go, noPseudoList, pseudoNamesList],
        by simp [pass2Go, pseudoNamesList]⟩
  | cons i t ih =>
      obtain ⟨h1inv, h1ext, h1names, h1sub, h1clean, h1iff⟩ := replaceInstrPass2_spec i st h
      obtain ⟨h2inv, h2ext, h2names, h2sub, h2clean, h2iff⟩ :=
        ih (replaceInstrPass2 i st).2 h1inv
      have hstep : pass2Go (i :: t) st =
          ((replaceInstrPass2 i st).1 :: (pass2Go t (replaceInstrPass2 i st).2).1,
            (pass2Go t (replaceInstrPass2 i st).2).2) := rfl
      rw [hstep]
      have hsplit : pseudoNamesList (i :: t) = instrPseudoNames i ++ pseudoNamesList t := by
        simp [pseudoNamesList]
      refine ⟨h2inv, mapExtends_trans h1ext h2ext, ?_, ?_, ?_, ?_⟩
      · intro n hn
        rw [hsplit] at hn
        rcases List.mem_append.mp hn with hni | hnt
        · exact isSome_of_mapExtends h2ext (h1names n hni)
        · exact h2names n hnt
      · simp only [List.map_cons, List.cons.injEq]
        constructor
        · rw [h1sub]
          exact substInstr_stable h2ext i h1names
        · exact h2sub
      · simp only [noPseudoList, pseudoNamesList, List.flatMap_cons] at h2clean ⊢
        simp [h1clean, h2clean]
      · intro n
        rw [h2iff n, h1iff n, hsplit, List.mem_append]
        tauto

/-- C1: after Pass 2 of the backend (`replace_pseudo_with_stack_pass2`) no
pseudo-register operand remains anywhere in the instruction list; every
occurrence of a pseudo-register name is replaced by the single stack-slot
offset the final variable map assigns it (so the first occurrence
allocates the slot and all later occurrences reuse it); the map binds
exactly the names occurring in the input, distinct names to pairwise
distinct offsets; and the returned byte total is 4 bytes per distinct
pseudo-register name. -/
theorem pass2_no_pseudo_unique_slots (instrs : List Instruction) :
    noPseudoList (replace_pseudo_with_stack_pass2 instrs).1 ∧
    (pass2Go instrs ([], 0)).1 =
      instrs.map (substInstr (pass2Go instrs ([], 0)).2.1) ∧
    (∀ n, (alookup (pass2Go instrs ([], 0)).2.1 n).isSome ↔ n ∈ pseudoNamesList instrs) ∧
    ((pass2Go instrs ([], 0)).2.1.map Prod.fst).Nodup ∧
    ((pass2Go instrs ([], 0)).2.1.map Prod.snd).Nodup ∧
    (replace_pseudo_with_stack_pass2 instrs).2 = 4 * (pass2Go instrs ([], 0)).2.1.length := by
  have h0 : P2Inv (([], 0) : P2St) := by
    refine ⟨by simp, by simp, by simp, by simp⟩
  obtain ⟨hinv, hext, hnames, hsub, hclean, hiff⟩ := pass2Go_spec instrs ([], 0) h0
  obtain ⟨hoff, hle, hkeys, hvals⟩ := hinv
  refine ⟨?_, hsub, ?_, hkeys, hvals, ?_⟩
  · simpa [replace_pseudo_with_stack_pass2] using hclean
  · intro n
    rw [hiff n]
    simp [alookup]
  · show (pass2Go instrs ([], 0)).2.2.natAbs = _
    omega

end Asm

namespace Asm

/-- `src/backend/asm_gen.rs` `fixup_instructions_pass3`, per-instruction
rewriting (the match arms in source order): memory-to-memory `mov` /
`add` / `sub` via scratch `R10`; memory-destination `imul` via scratch
`R11`; `idiv` of an immediate via `R10`; `cmp` with two stack operands
via `R10` and/or an immediate second operand via `R11`; `push` of an
immediate via `R10`; everything else copied unchanged. -/
def fixupInstr : Instruction → List Instruction
  | Instruction.mov (Operand.stack src_offset) (Operand.stack dst_offset) =>
      [Instruction.mov (Operand.stack src_offset) (Operand.reg Register.R10),
       Instruction.mov (Operand.reg Register.R10) (Operand.stack dst_offset)]
  | Instruction.binary BinaryOperator.add (Operand.stack s) (Operand.stack d) =>
      [Instruction.mov (Operand.stack s) (Operand.reg Register.R10),
       Instruction.binary BinaryOperator.add (Operand.reg Register.R10) (Operand.stack d)]
  | Instruction.binary BinaryOperator.subtract (Operand.stack s) (Operand.stack d) =>
      [Instruction.mov (Operand.stack s) (Operand.reg Register.R10),
       Instruction.binary BinaryOperator.subtract (Operand.reg Register.R10) (Operand.stack d)]
  | Instruction.binary BinaryOperator.multiply src (Operand.stack d) =>
      [Instruction.mov (Operand.stack d) (Operand.reg Register.R11),
       Instruction.binary BinaryOperator.multiply src (Operand.reg Register.R11),
       Instruction.mov (Operand.reg Register.R11) (Operand.stack d)]
  | Instruction.idiv (Operand.imm v) =>
      [Instruction.mov (Operand.imm v) (Operand.reg Register.R10),
       Instruction.idiv (Operand.reg Register.R10)]
  | Instruction.cmp (Operand.stack o1) (Operand.stack o2) =>
      [Instruction.mov (Operand.stack o1) (Operand.reg Register.R10),
       Instruction.cmp (Operand.reg Register.R10) (Operand.stack o2)]
  | Instruction.cmp src1 (Operand.imm v) =>
      [Instruction.mov (Operand.imm v) (Operand.reg Register.R11),
       Instruction.cmp src1 (Operand.reg Register.R11)]
  | Instruction.push (Operand.imm v) =>
      [Instruction.mov (Operand.imm v) (Operand.reg Register.R10),
       Instruction.push (Operand.reg Register.R10)]
  | i => [i]

/-- The 16-byte round-up `(stack_bytes + 15) & !15` on `u32` (wrapping
addition, mask `0xFFFFFFF0`). -/
def alignedBytes (stack_bytes : Nat) : Nat :=
  ((stack_bytes + 15) % 2 ^ 32) &&& 0xFFFFFFF0

/-- `src/backend/asm_gen.rs` `fixup_instructions_pass3`: prepend the
16-byte-aligned stack allocation when Pass 2 needed bytes, then rewrite
every instruction. -/
def fixup_instructions_pass3 (instrs : List Instruction) (stack_bytes : Nat) :
    List Instruction :=
  (if stack_bytes > 0 then [Instruction.allocateStack (alignedBytes stack_bytes)] else []) ++
  instrs.flatMap fixupInstr

/-- An operand living in memory (a stack slot, or a still-unallocated
pseudo-register). -/
def isMemOp : Operand → Bool
  | Operand.stack _ => true
  | Operand.pseudo _ => true
  | _ => false

def isImmOp : Operand → Bool
  | Operand.imm _ => true
  | _ => false

/-- ISA legality of one instruction: `mov`/`add`/`sub` may not take two
memory operands, `imul` may not have a memory destination, `cmp` may not
take two memory operands nor an immediate second operand, `idiv` and
`push` may not take an immediate. -/
def legalInstr : Instruction → Bool
  | Instruction.mov s d => !(isMemOp s && isMemOp d)
  | Instruction.binary BinaryOperator.add s d => !(isMemOp s && isMemOp d)
  | Instruction.binary BinaryOperator.subtract s d => !(isMemOp s && isMemOp d)
  | Instruction.binary BinaryOperator.multiply _ d => !(isMemOp d)
  | Instruction.cmp s1 s2 => !(isMemOp s1 && isMemOp s2) && !(isImmOp s2)
  | Instruction.idiv o => !(isImmOp o)
  | Instruction.push o => !(isImmOp o)
  | _ => true

/-- 32-bit mask arithmetic: `x & 0xFFFFFFF0` clears the low 4 bits. -/
theorem land_mask16 (x : Nat) (hx : x < 2 ^ 32) :
    x &&& 0xFFFFFFF0 = 16 * (x / 16) := by
  have hmask : (0xFFFFFFF0 : Nat) = (2 ^ 28 - 1) <<< 4 := by
    rw [Nat.shiftLeft_eq]
    norm_num
  have hr : 16 * (x / 16) = (x >>> 4) <<< 4 := by
    rw [Nat.shiftRight_eq_div_pow, Nat.shiftLeft_eq]
    norm_num
    ring
  rw [hmask, hr]
  apply Nat.eq_of_testBit_eq
  intro i
  rw [Nat.testBit_and, Nat.testBit_shiftLeft, Nat.testBit_shiftLeft,
    Nat.testBit_shiftRight, Nat.testBit_two_pow_sub_one]
  by_cases h4 : 4 ≤ i
  · have hge : i ≥ 4 := h4
    have hadd : 4 + (i - 4) = i := by omega
    simp only [ge_iff_le, hge, decide_True, Bool.true_and, hadd]
    by_cases h32 : i < 32
    · have h28 : i - 4 < 28 := by omega
      simp [h28]
    · have hxi : x.testBit i = false := by
        apply Nat.testBit_lt_two_pow
        calc x < 2 ^ 32 := hx
          _ ≤ 2 ^ i := Nat.pow_le_pow_right (by norm_num) (by omega)
      simp [hxi]
  · have : ¬(i ≥ 4) := h4
    simp [this]

theorem alignedBytes_eq (b : Nat) (hb : b + 15 < 2 ^ 32) :
    alignedBytes b = 16 * ((b + 15) / 16) := by
  unfold alignedBytes
  rw [Nat.mod_eq_of_lt hb]
  exact land_mask16 (b + 15) hb

/-- Every instruction a Pass-3 rewrite emits is ISA-legal, as long as the
input instruction carries no pseudo-register. -/
theorem fixupInstr_legal (i : Instruction) (h : instrPseudoNames i = []) :
    ∀ j ∈ fixupInstr i, legalInstr j = true := by
  cases i with
  | mov s d =>
      cases s <;> cases d <;>
        simp_all [fixupInstr, legalInstr, isMemOp, isImmOp, instrPseudoNames, opPseudoNames]
  | binary op s d =>
      cases op <;> cases s <;> cases d <;>
        simp_all [fixupInstr, legalInstr, isMemOp, isImmOp, instrPseudoNames, opPseudoNames]
  | cmp s1 s2 =>
      cases s1 <;> cases s2 <;>
        simp_all [fixupInstr, legalInstr, isMemOp, isImmOp, instrPseudoNames, opPseudoNames]
  | idiv o =>
      cases o <;>
        simp_all [fixupInstr, legalInstr, isMemOp, isImmOp, instrPseudoNames, opPseudoNames]
  | push o =>
      cases o <;>
        simp_all [fixupInstr, legalInstr, isMemOp, isImmOp, instrPseudoNames, opPseudoNames]
  | unary op o =>
      simp_all [fixupInstr, legalInstr, instrPseudoNames]
  | setCC cc o =>
      simp_all [fixupInstr, legalInstr, instrPseudoNames]
  | cdq => simp [fixupInstr, legalInstr]
  | ret => simp [fixupInstr, legalInstr]
  | jmp t => simp [fixupInstr, legalInstr]
  | jmpCC cc t => simp [fixupInstr, legalInstr]
  | label nm => simp [fixupInstr, legalInstr]
  | allocateStack bts => simp [fixupInstr, legalInstr]
  | deallocateStack bts => simp [fixupInstr, legalInstr]
  | call nm => simp [fixupInstr, legalInstr]

end Asm

namespace Asm

/-- C8 counterexample: for a function whose Pass-2 total is 0 (e.g. a body
that is just `Ret`), Pass 3 prepends no stack-allocation prologue at all —
the output contains no `AllocateStack` — contradicting the claim that a
prologue is prepended for every function. -/
theorem fixup_pass3_no_prologue_for_zero_total :
    fixup_instructions_pass3 [Instruction.ret] 0 = [Instruction.ret] ∧
    ∀ b, Instruction.allocateStack b ∉ fixup_instructions_pass3 [Instruction.ret] 0 := by
  constructor
  · rfl
  · intro b hb
    simp [fixup_instructions_pass3, fixupInstr] at hb

/-- C8 (amended: the prologue is prepended exactly when the Pass-2 total is
positive): Pass 3 prepends a stack allocation of the total rounded up to a
multiple of 16 whenever the total is positive, rewrites each ISA-illegal
operand pair through the scratch registers (`R10` for memory-to-memory
mov/add/sub and immediate divides and pushes, `R11` for memory-destination
multiplies and immediate compare operands), and afterwards no instruction
retains an operand combination the target ISA forbids. -/
theorem fixup_pass3_legalizes (instrs : List Instruction) (b : Nat)
    (hnp : noPseudoList instrs) (hb : b + 15 < 2 ^ 32) :
    (0 < b → fixup_instructions_pass3 instrs b =
      Instruction.allocateStack (16 * ((b + 15) / 16)) :: instrs.flatMap fixupInstr) ∧
    (b = 0 → fixup_instructions_pass3 instrs b = instrs.flatMap fixupInstr) ∧
    b ≤ 16 * ((b + 15) / 16) ∧
    16 * ((b + 15) / 16) < b + 16 ∧
    16 * ((b + 15) / 16) % 16 = 0 ∧
    (∀ j ∈ fixup_instructions_pass3 instrs b, legalInstr j = true) ∧
    (∀ s d : Int, fixupInstr (Instruction.mov (Operand.stack s) (Operand.stack d)) =
      [Instruction.mov (Operand.stack s) (Operand.reg Register.R10),
       Instruction.mov (Operand.reg Register.R10) (Operand.stack d)]) ∧
    (∀ s d : Int,
      fixupInstr (Instruction.binary BinaryOperator.add (Operand.stack s) (Operand.stack d)) =
      [Instruction.mov (Operand.stack s) (Operand.reg Register.R10),
       Instruction.binary BinaryOperator.add (Operand.reg Register.R10) (Operand.stack d)]) ∧
    (∀ s d : Int,
      fixupInstr
        (Instruction.binary BinaryOperator.subtract (Operand.stack s) (Operand.stack d)) =
      [Instruction.mov (Operand.stack s) (Operand.reg Register.R10),
       Instruction.binary BinaryOperator.subtract (Operand.reg Register.R10)
         (Operand.stack d)]) ∧
    (∀ (src : Operand) (d : Int),
      fixupInstr (Instruction.binary BinaryOperator.multiply src (Operand.stack d)) =
      [Instruction.mov (Operand.stack d) (Operand.reg Register.R11),
       Instruction.binary BinaryOperator.multiply src (Operand.reg Register.R11),
       Instruction.mov (Operand.reg Register.R11) (Operand.stack d)]) ∧
    (∀ v : Int, fixupInstr (Instruction.idiv (Operand.imm v)) =
      [Instruction.mov (Operand.imm v) (Operand.reg Register.R10),
       Instruction.idiv (Operand.reg Register.R10)]) ∧
    (∀ o1 o2 : Int, fixupInstr (Instruction.cmp (Operand.stack o1) (Operand.stack o2)) =
      [Instruction.mov (Operand.stack o1) (Operand.reg Register.R10),
       Instruction.cmp (Operand.reg Register.R10) (Operand.stack o2)]) ∧
    (∀ (r : Register) (v : Int), fixupInstr (Instruction.cmp (Operand.reg r) (Operand.imm v)) =
      [Instruction.mov (Operand.imm v) (Operand.reg Register.R11),
       Instruction.cmp (Operand.reg r) (Operand.reg Register.R11)]) ∧
    (∀ v : Int, fixupInstr (Instruction.push (Operand.imm v)) =
      [Instruction.mov (Operand.imm v) (Operand.reg Register.R10),
       Instruction.push (Operand.reg Register.R10)]) := by
  have halign := alignedBytes_eq b hb
  refine ⟨?_, ?_, by omega, by omega, by omega, ?_,
    fun s d => rfl, fun s d => rfl, fun s d => rfl, fun src d => rfl,
    fun v => rfl, fun o1 o2 => rfl, fun r v => rfl, fun v => rfl⟩
  · intro hpos
    unfold fixup_instructions_pass3
    rw [if_pos hpos, halign]
    rfl
  · intro hzero
    subst hzero
    rfl
  · intro j hj
    unfold fixup_instructions_pass3 at hj
    rcases List.mem_append.mp hj with hpre | hmain
    · split at hpre
      · rcases List.mem_singleton.mp hpre with rfl
        rfl
      · exact absurd hpre (List.not_mem_nil j)
    · obtain ⟨i, hi, hji⟩ := List.mem_flatMap.mp hmain
      have hclean : instrPseudoNames i = [] :=
        List.flatMap_eq_nil_iff.mp hnp i hi
      exact fixupInstr_legal i hclean j hji

/-- Witness for C8's amended theorem at a concrete function: a single
memory-to-memory move with a 4-byte Pass-2 total. -/
theorem fixup_pass3_legalizes_witness :
    noPseudoList [Instruction.mov (Operand.stack (-4)) (Operand.stack (-8))] ∧
    4 + 15 < 2 ^ 32 ∧
    fixup_instructions_pass3
      [Instruction.mov (Operand.stack (-4)) (Operand.stack (-8))] 4 =
      [Instruction.allocateStack 16,
       Instruction.mov (Operand.stack (-4)) (Operand.reg Register.R10),
       Instruction.mov (Operand.reg Register.R10) (Operand.stack (-8))] := by
  refine ⟨by simp [noPseudoList, pseudoNamesList, instrPseudoNames, opPseudoNames],
    by norm_num, ?_⟩
  have h := fixup_pass3_legalizes
    [Instruction.mov (Operand.stack (-4)) (Operand.stack (-8))] 4
    (by simp [noPseudoList, pseudoNamesList, instrPseudoNames, opPseudoNames])
    (by norm_num)
  have h1 := h.1 (by norm_num)
  rw [h1]
  rfl

end Asm

namespace Emit

open Asm

/-- `src/backend/emitter.rs` `format_register`: register name by operand
size; an unsupported size is a panic, modelled as `none`. -/
def format_register (r : Register) (size_in_bytes : Nat) : Option String :=
  let names : String × String × String :=
    match r with
    | Register.AX => ("%rax", "%eax", "%al")
    | Register.DX => ("%rdx", "%edx", "%dl")
    | Register.CX => ("%rcx", "%ecx", "%cl")
    | Register.DI => ("%rdi", "%edi", "%dil")
    | Register.SI => ("%rsi", "%esi", "%sil")
    | Register.R8 => ("%r8", "%r8d", "%r8b")
    | Register.R9 => ("%r9", "%r9d", "%r9b")
    | Register.R10 => ("%r10", "%r10d", "%r10b")
    | Register.R11 => ("%r11", "%r11d", "%r11b")
  match size_in_bytes with
  | 8 => some names.1
  | 4 => some names.2.1
  | 1 => some names.2.2
  | _ => none

/-- `src/backend/emitter.rs` `format_operand` (lines 189–201): immediates,
registers and stack slots format to assembler syntax; a surviving
pseudo-register is a panic (`none`), never an error value. -/
def format_operand (op : Operand) (size_in_bytes : Nat) : Option String :=
  match op with
  | Operand.imm value => some ("$" ++ toString value)
  | Operand.reg r => format_register r size_in_bytes
  | Operand.stack offset => some (toString offset ++ "(%rbp)")
  | Operand.pseudo _ => none

/-- Pass-3 rewriting preserves the multiset of pseudo-register names: the
legalizer neither detects nor rejects surviving pseudo-registers. -/
theorem fixupInstr_preserves_pseudoNames (i : Instruction) :
    pseudoNamesList (fixupInstr i) = instrPseudoNames i := by
  cases i with
  | mov s d =>
      cases s <;> cases d <;>
        simp [fixupInstr, pseudoNamesList, instrPseudoNames, opPseudoNames]
  | binary op s d =>
      cases op <;> cases s <;> cases d <;>
        simp [fixupInstr, pseudoNamesList, instrPseudoNames, opPseudoNames]
  | cmp s1 s2 =>
      cases s1 <;> cases s2 <;>
        simp [fixupInstr, pseudoNamesList, instrPseudoNames, opPseudoNames]
  | idiv o =>
      cases o <;> simp [fixupInstr, pseudoNamesList, instrPseudoNames, opPseudoNames]
  | push o =>
      cases o <;> simp [fixupInstr, pseudoNamesList, instrPseudoNames, opPseudoNames]
  | unary op o => simp [fixupInstr, pseudoNamesList, instrPseudoNames]
  | setCC cc o => simp [fixupInstr, pseudoNamesList, instrPseudoNames]
  | cdq => simp [fixupInstr, pseudoNamesList, instrPseudoNames]
  | ret => simp [fixupInstr, pseudoNamesList, instrPseudoNames]
  | jmp t => simp [fixupInstr, pseudoNamesList, instrPseudoNames]
  | jmpCC cc t => simp [fixupInstr, pseudoNamesList, instrPseudoNames]
  | label nm => simp [fixupInstr, pseudoNamesList, instrPseudoNames]
  | allocateStack b => simp [fixupInstr, pseudoNamesList, instrPseudoNames]
  | deallocateStack b => simp [fixupInstr, pseudoNamesList, instrPseudoNames]
  | call nm => simp [fixupInstr, pseudoNamesList, instrPseudoNames]

/-- C9: a pseudo-register operand that survives to emission is a fatal
panic when formatted (`none`), never a descriptive error value; every
non-pseudo operand formats successfully at each size the emitter uses
(1, 4 or 8 bytes); and Pass 3 (legalization) itself neither detects nor
rejects surviving pseudo-registers — it carries every pseudo-register
name through unchanged, returning no error. -/
theorem pseudo_register_survival_is_fatal :
    (∀ (name : String) (size : Nat),
      format_operand (Operand.pseudo name) size = none) ∧
    (∀ (op : Operand) (size : Nat), (∀ n, op ≠ Operand.pseudo n) →
      (size = 1 ∨ size = 4 ∨ size = 8) → (format_operand op size).isSome) ∧
    (∀ (instrs : List Instruction) (b : Nat),
      pseudoNamesList (fixup_instructions_pass3 instrs b) = pseudoNamesList instrs) := by
  refine ⟨fun name size => rfl, ?_, ?_⟩
  · intro op size hnp hsize
    cases op with
    | pseudo n => exact absurd rfl (hnp n)
    | imm v => simp [format_operand]
    | stack o => simp [format_operand]
    | reg r =>
        rcases hsize with rfl | rfl | rfl <;> cases r <;> simp [format_operand, format_register]
  · intro instrs b
    unfold fixup_instructions_pass3
    have hpre : pseudoNamesList
        (if b > 0 then [Instruction.allocateStack (alignedBytes b)] else []) = [] := by
      split <;> simp [pseudoNamesList, instrPseudoNames]
    rw [pseudoNamesList, List.flatMap_append]
    rw [pseudoNamesList] at hpre
    rw [hpre, List.nil_append]
    induction instrs with
    | nil => simp [pseudoNamesList]
    | cons i t ih =>
        rw [List.flatMap_cons, List.flatMap_append]
        have hi := fixupInstr_preserves_pseudoNames i
        rw [pseudoNamesList] at hi
        rw [hi, pseudoNamesList, List.flatMap_cons]
        congr 1

/-- Witness for C9 at concrete inputs. -/
theorem pseudo_register_survival_witness :
    format_operand (Operand.pseudo ("tmp.0")) 4 = none ∧
    (format_operand (Operand.reg Register.AX) 4).isSome ∧
    pseudoNamesList
      (fixup_instructions_pass3 [Instruction.push (Operand.pseudo ("tmp.0"))] 0) =
      pseudoNamesList [Instruction.push (Operand.pseudo ("tmp.0"))] := by
  have h := pseudo_register_survival_is_fatal
  exact ⟨h.1 ("tmp.0") 4,
    h.2.1 (Operand.reg Register.AX) 4 (fun n => by simp) (Or.inr (Or.inl rfl)),
    h.2.2 [Instruction.push (Operand.pseudo ("tmp.0"))] 0⟩

end Emit

namespace U

/-- `src/ast.rs` `unchecked::UnaryOperator`. -/
inductive UnaryOperator where
  | negate | complement | lnot
deriving DecidableEq, Repr

/-- `src/ast.rs` `unchecked::BinaryOperator`. -/
inductive BinaryOperator where
  | add | subtract | multiply | divide | remainder
  | andOp | orOp
  | equal | notEqual | lessThan | lessOrEqual | greaterThan | greaterOrEqual
deriving DecidableEq, Repr

/-- `src/ast.rs` `unchecked::Expression`. -/
inductive Expression where
  | constant (i : Int)
  | unary (operator : UnaryOperator) (expression : Expression)
  | binary (operator : BinaryOperator) (left right : Expression)
  | var (name : String)
  | assign (left right : Expression)
  | conditional (condition left right : Expression)
  | functionCall (name : String) (args : List Expression)
deriving Repr

mutual

/-- `src/ast.rs` `unchecked::Statement`. -/
inductive Statement where
  | ret (e : Expression)
  | expression (e : Expression)
  | empty
  | ifStmt (condition : Expression) (then_stat : Statement) (else_stat : Option Statement)
  | compound (b : Block)
  | whileStmt (condition : Expression) (body : Statement)
  | doWhile (body : Statement) (condition : Expression)
  | forStmt (init : Option BlockItem) (condition : Option Expression)
      (post : Option Expression) (body : Statement)
  | breakStmt
  | continueStmt
deriving Repr

/-- `src/ast.rs` `unchecked::Block`. -/
inductive Block where
  | mk (blocks : List BlockItem)
deriving Repr

/-- `src/ast.rs` `unchecked::BlockItem`. -/
inductive BlockItem where
  | S (s : Statement)
  | D (d : Declaration)
deriving Repr

/-- `src/ast.rs` `unchecked::Declaration`. -/
inductive Declaration where
  | function (name : String) (params : List String) (body : Option Block)
  | varDecl (name : String) (init : Option Expression)
deriving Repr

end

/-- `src/ast.rs` `unchecked::Program`. -/
structure Program where
  declarations : List Declaration
deriving Repr

end U

/-- Association-list insert with `HashMap::insert` overwrite semantics. -/
def minsert {α : Type} (m : List (String × α)) (k : String) (v : α) :
    List (String × α) :=
  (k, v) :: m

/-- Association-list removal with `HashMap::remove` semantics. -/
def mremove {α : Type} (m : List (String × α)) (k : String) : List (String × α) :=
  m.filter (fun p => p.1 ≠ k)

theorem alookup_minsert_self {α : Type} (m : List (String × α)) (k : String) (v : α) :
    alookup (minsert m k v) k = some v := by
  simp [minsert, alookup_cons]

theorem alookup_minsert_ne {α : Type} (m : List (String × α)) (k k' : String) (v : α)
    (h : k ≠ k') : alookup (minsert m k v) k' = alookup m k' := by
  simp [minsert, alookup_cons, h]

namespace TC

/-- `src/semantics/type_checker.rs` `CType`. -/
inductive CType where
  | int
  | function (param_count : Nat)
deriving DecidableEq, Repr

/-- `src/semantics/type_checker.rs` `Symbol`. -/
structure Symbol where
  c_type : CType
  defined : Bool
deriving DecidableEq, Repr

/-- The flat symbol table (`TypeChecker.symbols`). -/
abbrev Symbols := List (String × Symbol)

def incompatibleMsg (name : String) : String :=
  "Incompatible declaration for function " ++ sQuote ++ name ++ sQuote

def duplicateDefMsg (name : String) : String :=
  "Function " ++ sQuote ++ name ++ sQuote ++ " is defined more than once"

def undeclaredInternalMsg (name : String) : String :=
  "Internal error: undeclared identifier " ++ sQuote ++ name ++ sQuote ++
    " after validation pass"

def functionAsVariableMsg (name : String) : String :=
  "Function " ++ sQuote ++ name ++ sQuote ++ " used as a variable"

def variableAsFunctionMsg (name : String) : String :=
  "Variable " ++ sQuote ++ name ++ sQuote ++ " used as a function"

def arityMismatchMsg (name : String) (got expected : Nat) : String :=
  "Function " ++ sQuote ++ name ++ sQuote ++ " called with " ++ toString got ++
    " arguments, but expects " ++ toString expected

mutual

/-- `src/semantics/type_checker.rs` `check_expression` (read-only on the
flat symbol table). -/
def checkExpression (syms : Symbols) : U.Expression → Except String Unit
  | U.Expression.constant _ => pure ()
  | U.Expression.var name =>
      match alookup syms name with
      | none => Except.error (undeclaredInternalMsg name)
      | some symbol =>
          match symbol.c_type with
          | CType.function _ => Except.error (functionAsVariableMsg name)
          | CType.int => pure ()
  | U.Expression.functionCall name args =>
      match alookup syms name with
      | none => Except.error (undeclaredInternalMsg name)
      | some symbol =>
          match symbol.c_type with
          | CType.int => Except.error (variableAsFunctionMsg name)
          | CType.function param_count =>
              if args.length ≠ param_count then
                Except.error (arityMismatchMsg name args.length param_count)
              else
                checkExpressionArgs syms args
  | U.Expression.assign left right => do
      checkExpression syms left
      checkExpression syms right
  | U.Expression.unary _ e => checkExpression syms e
  | U.Expression.binary _ left right => do
      checkExpression syms left
      checkExpression syms right
  | U.Expression.conditional condition left right => do
      checkExpression syms condition
      checkExpression syms left
      checkExpression syms right

/-- Argument list of a call, checked left to right. -/
def checkExpressionArgs (syms : Symbols) : List U.Expression → Except String Unit
  | [] => pure ()
  | a :: t => do
      checkExpression syms a
      checkExpressionArgs syms t

end

mutual

/-- `src/semantics/type_checker.rs` `check_declaration`: the arity/kind
checker's redeclaration logic over the flat symbol table. -/
def checkDeclaration (syms : Symbols) : U.Declaration → Except String Symbols
  | U.Declaration.function name params body => do
      let fun_type := CType.function params.length
      let has_body := body.isSome
      let already_defined ←
        match alookup syms name with
        | some old_symbol =>
            if old_symbol.c_type ≠ fun_type then
              Except.error (incompatibleMsg name)
            else
              pure old_symbol.defined
        | none => pure false
      if already_defined && has_body then
        Except.error (duplicateDefMsg name)
      else
        let syms1 := minsert syms name ⟨fun_type, already_defined || has_body⟩
        match body with
        | some block => do
            let syms2 := params.foldl
              (fun m param_name => minsert m param_name ⟨CType.int, true⟩) syms1
            let syms3 ← checkBlock syms2 block
            pure (params.foldl (fun m param_name => mremove m param_name) syms3)
        | none => pure syms1
  | U.Declaration.varDecl name init => do
      let syms1 := minsert syms name ⟨CType.int, true⟩
      match init with
      | some init_expr => do
          checkExpression syms1 init_expr
          pure syms1
      | none => pure syms1

/-- `src/semantics/type_checker.rs` `check_block`. -/
def checkBlock (syms : Symbols) : U.Block → Except String Symbols
  | U.Block.mk items => checkBlockItems syms items

def checkBlockItems (syms : Symbols) : List U.BlockItem → Except String Symbols
  | [] => pure syms
  | item :: t => do
      let syms1 ← checkBlockItem syms item
      checkBlockItems syms1 t

/-- `src/semantics/type_checker.rs` `check_block_item`. -/
def checkBlockItem (syms : Symbols) : U.BlockItem → Except String Symbols
  | U.BlockItem.S stmt => checkStatement syms stmt
  | U.BlockItem.D decl => checkDeclaration syms decl

/-- `src/semantics/type_checker.rs` `check_statement`. -/
def checkStatement (syms : Symbols) : U.Statement → Except String Symbols
  | U.Statement.ret expr => do
      checkExpression syms expr
      pure syms
  | U.Statement.expression expr => do
      checkExpression syms expr
      pure syms
  | U.Statement.ifStmt condition then_stat else_stat => do
      checkExpression syms condition
      let syms1 ← checkStatement syms then_stat
      match else_stat with
      | some else_s => checkStatement syms1 else_s
      | none => pure syms1
  | U.Statement.compound block => checkBlock syms block
  | U.Statement.forStmt init condition post body => do
      let syms1 ←
        match init with
        | some init_item => checkBlockItem syms init_item
        | none => pure syms
      match condition with
      | some cond_expr => checkExpression syms1 cond_expr
      | none => pure ()
      match post with
      | some post_expr => checkExpression syms1 post_expr
      | none => pure ()
      checkStatement syms1 body
  | U.Statement.whileStmt condition body => do
      checkExpression syms condition
      checkStatement syms body
  | U.Statement.doWhile body condition => do
      let syms1 ← checkStatement syms body
      checkExpression syms1 condition
      pure syms1
  | U.Statement.empty => pure syms
  | U.Statement.breakStmt => pure syms
  | U.Statement.continueStmt => pure syms

end

/-- The loop of `check_program` over the top-level declarations. -/
def checkProgramGo (syms : Symbols) : List U.Declaration → Except String Symbols
  | [] => pure syms
  | d :: t => do
      let syms1 ← checkDeclaration syms d
      checkProgramGo syms1 t

/-- `src/semantics/type_checker.rs` `check_program` on a fresh checker. -/
def check_program (prog : U.Program) : Except String Symbols :=
  checkProgramGo [] prog.declarations

end TC

namespace TC

/-- C5 counterexample: a second function body whose arity differs from the
first definition fails with the incompatible-redeclaration error, not the
duplicate-function-definition error — so "a declaration supplying a body
when a body was already supplied always fails with a
duplicate-function-definition error" is false as stated. -/
theorem second_body_can_fail_incompatible :
    check_program ⟨[U.Declaration.function ("f") (["x"]) (some (U.Block.mk [])),
      U.Declaration.function ("f") ([]) (some (U.Block.mk []))]⟩ =
      Except.error (incompatibleMsg ("f")) ∧
    incompatibleMsg ("f") ≠ duplicateDefMsg ("f") := by
  constructor
  · rfl
  · decide

/-- C5 (amended: the duplicate-function-definition error is what a second
body receives when the kind/arity matches the existing entry; the
incompatibility check runs first): bodyless re-declarations of matching
arity always succeed and preserve the entry (hence any number of them,
including after the definition); a body supplied when a body was already
supplied for a matching signature fails `DuplicateFunctionDefinition`; a
kind or arity mismatch with the existing entry fails
`IncompatibleRedeclaration`. -/
theorem check_declaration_redeclaration_rules (syms : Symbols) (name : String)
    (params : List String) :
    (∀ d : Bool, alookup syms name = some ⟨CType.function params.length, d⟩ →
      checkDeclaration syms (U.Declaration.function name params none) =
        Except.ok (minsert syms name ⟨CType.function params.length, d⟩)) ∧
    (∀ blk : U.Block, alookup syms name = some ⟨CType.function params.length, true⟩ →
      checkDeclaration syms (U.Declaration.function name params (some blk)) =
        Except.error (duplicateDefMsg name)) ∧
    (∀ (sym : Symbol) (body : Option U.Block), alookup syms name = some sym →
      sym.c_type ≠ CType.function params.length →
      checkDeclaration syms (U.Declaration.function name params body) =
        Except.error (incompatibleMsg name)) ∧
    (∀ (k : Nat) (d : Bool), alookup syms name = some ⟨CType.function params.length, d⟩ →
      ∃ syms', checkProgramGo syms
          (List.replicate k (U.Declaration.function name params none)) =
          Except.ok syms' ∧
        alookup syms' name = some ⟨CType.function params.length, d⟩) := by
  have hok : ∀ (s : Symbols) (d : Bool),
      alookup s name = some ⟨CType.function params.length, d⟩ →
      checkDeclaration s (U.Declaration.function name params none) =
        Except.ok (minsert s name ⟨CType.function params.length, d⟩) := by
    intro s d h
    unfold checkDeclaration
    rw [h]
    simp [pure, Except.pure, Bind.bind, Except.bind]
  refine ⟨fun d h => hok syms d h, ?_, ?_, ?_⟩
  · intro blk h
    unfold checkDeclaration
    rw [h]
    simp [pure, Except.pure, Bind.bind, Except.bind]
  · intro sym body h hne
    unfold checkDeclaration
    rw [h]
    simp only [ne_eq, hne, not_false_eq_true, if_true, ite_not]
    simp [Bind.bind, Except.bind, hne]
  · intro k
    induction k generalizing syms with
    | zero =>
        intro d h
        exact ⟨syms, rfl, h⟩
    | succ n ih =>
        intro d h
        have hstep := hok syms d h
        have hlook : alookup (minsert syms name ⟨CType.function params.length, d⟩) name =
            some ⟨CType.function params.length, d⟩ := alookup_minsert_self _ _ _
        obtain ⟨s', hs', hl'⟩ := ih (minsert syms name ⟨CType.function params.length, d⟩) d hlook
        refine ⟨s', ?_, hl'⟩
        simp only [List.replicate_succ, checkProgramGo, hstep, Bind.bind, Except.bind]
        exact hs'

/-- Witness for C5's amended theorem: a table holding `f` as a defined
one-parameter function accepts a bodyless matching re-declaration after
the definition, rejects a second body as a duplicate definition, and a
table holding `g` as a scalar rejects a function declaration of `g` as
incompatible. -/
theorem check_declaration_redeclaration_rules_witness :
    checkDeclaration [(("f"), ⟨CType.function 1, true⟩)]
        (U.Declaration.function ("f") (["x"]) none) =
      Except.ok (minsert [(("f"), ⟨CType.function 1, true⟩)] ("f")
        ⟨CType.function 1, true⟩) ∧
    checkDeclaration [(("f"), ⟨CType.function 1, true⟩)]
        (U.Declaration.function ("f") (["x"]) (some (U.Block.mk []))) =
      Except.error (duplicateDefMsg ("f")) ∧
    checkDeclaration [(("g"), ⟨CType.int, true⟩)]
        (U.Declaration.function ("g") ([]) none) =
      Except.error (incompatibleMsg ("g")) := by
  refine ⟨?_, ?_, ?_⟩
  · exact (check_declaration_redeclaration_rules
      [(("f"), ⟨CType.function 1, true⟩)] ("f") (["x"])).1 true (by decide)
  · exact (check_declaration_redeclaration_rules
      [(("f"), ⟨CType.function 1, true⟩)] ("f") (["x"])).2.1 (U.Block.mk []) (by decide)
  · exact (check_declaration_redeclaration_rules
      [(("g"), ⟨CType.int, true⟩)] ("g") ([])).2.2.1 ⟨CType.int, true⟩ none
      (by decide) (by decide)

end TC

namespace V

/-- `src/semantics/validator.rs` `IdentifierInfo`. -/
structure IdentifierInfo where
  unique_name : String
  has_external_linkage : Bool
deriving DecidableEq, Repr

/-- One mapping frame of the scope stack. -/
abbrev Frame := List (String × IdentifierInfo)

/-- Validator state: the scope stack (`Vec` order — the *last* frame is the
innermost) and the shared monotonic id generator (`UniqueIdGenerator`). -/
structure VState where
  scopes : List Frame
  gen : Nat
deriving Repr

/-- Replace the last (innermost) frame, as `scopes.last_mut()` does. -/
def updateLast (scopes : List Frame) (f : Frame → Frame) : List Frame :=
  match scopes with
  | [] => []
  | [x] => [f x]
  | x :: rest => x :: updateLast rest f

def containsKey (m : Frame) (k : String) : Bool := (alookup m k).isSome

/-- `scopes.last_mut().unwrap()` / `scopes.last().unwrap()` on an empty
stack is a Rust panic; modelled as this distinguished error (never
reachable from `validate_program`, which enters the global scope first). -/
def panicEmptyScopes : String := "panic: called unwrap on an empty scope stack"

def nestedFnMsg (name : String) : String :=
  "Nested function definitions are not allowed: " ++ sQuote ++ name ++ sQuote

def dupFnMsg (name : String) : String :=
  "Duplicate declaration: " ++ sQuote ++ name ++ sQuote ++
    " conflicts with a local variable."

def dupParamMsg (param_name name : String) : String :=
  "Duplicate parameter name " ++ sQuote ++ param_name ++ sQuote ++
    " in function " ++ sQuote ++ name ++ sQuote

def dupVarMsg (name : String) : String :=
  "Duplicate variable declaration for " ++ sQuote ++ name ++ sQuote

def undeclaredVarMsg (name : String) : String :=
  "Use of undeclared variable " ++ sQuote ++ name ++ sQuote

def callVariableMsg (name : String) : String :=
  sQuote ++ name ++ sQuote ++ " is a variable and cannot be called as a function"

def undeclaredFnMsg (name : String) : String :=
  "Call to undeclared function " ++ sQuote ++ name ++ sQuote

/-- The `format!("Invalid l-value for assignment: {:?}", left)` message,
modelled without the debug dump of the expression. -/
def invalidLValueMsg : String := "Invalid l-value for assignment"

/-- `src/semantics/validator.rs` `generate_unique_name`: `"{name}.{id}"`
from the shared counter. -/
def generate_unique_name (original_name : String) (gen : Nat) : String × Nat :=
  (original_name ++ "." ++ toString gen, gen + 1)

/-- `src/semantics/validator.rs` `find_identifier`: search the frames
innermost-to-outermost (`iter().rev().find_map`). -/
def find_identifier (scopes : List Frame) (key : String) : Option IdentifierInfo :=
  scopes.reverse.findSome? (fun map => alookup map key)

mutual

/-- `src/semantics/validator.rs` `validate_expression` (read-only on the
scope stack, no renaming counter use). -/
def validateExpression (scopes : List Frame) : U.Expression → Except String U.Expression
  | U.Expression.constant c => pure (U.Expression.constant c)
  | U.Expression.var name =>
      match find_identifier scopes name with
      | some info => pure (U.Expression.var info.unique_name)
      | none => Except.error (undeclaredVarMsg name)
  | U.Expression.functionCall name args => do
      let resolved_name ←
        match find_identifier scopes name with
        | some info =>
            if ¬info.has_external_linkage then
              Except.error (callVariableMsg name)
            else
              pure info.unique_name
        | none => Except.error (undeclaredFnMsg name)
      let validated_args ← validateExpressionArgs scopes args
      pure (U.Expression.functionCall resolved_name validated_args)
  | U.Expression.assign left right => do
      match left with
      | U.Expression.var _ => pure ()
      | _ => Except.error (invalidLValueMsg)
      let validated_left ← validateExpression scopes left
      let validated_right ← validateExpression scopes right
      pure (U.Expression.assign validated_left validated_right)
  | U.Expression.unary operator expression => do
      let validated ← validateExpression scopes expression
      pure (U.Expression.unary operator validated)
  | U.Expression.binary operator left right => do
      let validated_left ← validateExpression scopes left
      let validated_right ← validateExpression scopes right
      pure (U.Expression.binary operator validated_left validated_right)
  | U.Expression.conditional condition left right => do
      let validated_cond ← validateExpression scopes condition
      let validated_then ← validateExpression scopes left
      let validated_else ← validateExpression scopes right
      pure (U.Expression.conditional validated_cond validated_then validated_else)

def validateExpressionArgs (scopes : List Frame) :
    List U.Expression → Except String (List U.Expression)
  | [] => pure []
  | a :: t => do
      let a' ← validateExpression scopes a
      let t' ← validateExpressionArgs scopes t
      pure (a' :: t')

end

/-- The parameter loop of `validate_declaration`: check each parameter for
duplication in the freshly pushed function frame, rename it via the shared
counter, and insert it. -/
def validateParams (name : String) : List String → VState →
    Except String (List String × VState)
  | [], st => pure ([], st)
  | param_name :: rest, st =>
      match st.scopes.getLast? with
      | none => Except.error (panicEmptyScopes)
      | some map =>
          if containsKey map param_name then
            Except.error (dupParamMsg param_name name)
          else
            let (unique_param_name, gen') := generate_unique_name param_name st.gen
            let scopes' := updateLast st.scopes
              (fun m => minsert m param_name ⟨unique_param_name, false⟩)
            do
              let (rest', st') ← validateParams name rest ⟨scopes', gen'⟩
              pure (unique_param_name :: rest', st')

/-- The current-frame duplicate check of `validate_declaration`'s function
arm (`if let Some(map) = self.scopes.last() ...`): a pre-existing entry
without external linkage in the *last* frame is a duplicate declaration;
anything else passes. -/
def functionDupCheck (scopes : List Frame) (name : String) : Except String Unit :=
  match scopes.getLast? with
  | some map =>
      match alookup map name with
      | some prev_entry =>
          if ¬prev_entry.has_external_linkage then
            Except.error (dupFnMsg name)
          else pure ()
      | none => pure ()
  | none => pure ()

/-- `self.scopes.last_mut().unwrap().insert(k, v)`: panics (error) on an
empty stack, otherwise inserts into the innermost frame. -/
def insertLastFrame (scopes : List Frame) (k : String) (v : IdentifierInfo) :
    Except String (List Frame) :=
  match scopes with
  | [] => Except.error (panicEmptyScopes)
  | _ :: _ => pure (updateLast scopes (fun m => minsert m k v))

mutual

/-- `src/semantics/validator.rs` `validate_declaration` (lines 55–180):
nested function definitions are rejected outright; the duplicate check
reads only the current (last) frame; functions keep their name and gain
external linkage; parameters and the body share one freshly pushed frame;
local variables are renamed from the shared counter, globals keep their
name. -/
def validateDeclaration (decl : U.Declaration) (is_global : Bool) (st : VState) :
    Except String (U.Declaration × VState) :=
  match decl with
  | U.Declaration.function name params body =>
      if !is_global && body.isSome then
        Except.error (nestedFnMsg name)
      else do
        functionDupCheck st.scopes name
        let scopes1 ← insertLastFrame st.scopes name ⟨name, true⟩
        let scopes2 := scopes1 ++ [[]]
        do
              let (validated_params, st2) ← validateParams name params ⟨scopes2, st.gen⟩
              match body with
              | some (U.Block.mk items) => do
                  let (validated_items, st3) ← validateBlockItems items st2
                  pure (U.Declaration.function name validated_params
                          (some (U.Block.mk validated_items)),
                        ⟨st3.scopes.dropLast, st3.gen⟩)
              | none =>
                  pure (U.Declaration.function name validated_params none,
                        ⟨st2.scopes.dropLast, st2.gen⟩)
  | U.Declaration.varDecl name init =>
      match st.scopes.getLast? with
      | none => Except.error (panicEmptyScopes)
      | some map =>
          if containsKey map name then
            Except.error (dupVarMsg name)
          else
            let unl : String × Bool × Nat :=
              if is_global then (name, true, st.gen)
              else
                let (u, g) := generate_unique_name name st.gen
                (u, false, g)
            let scopes1 := updateLast st.scopes
              (fun m => minsert m name ⟨unl.1, unl.2.1⟩)
            do
              let validated_init ←
                match init with
                | some expr => do
                    let e ← validateExpression scopes1 expr
                    pure (some e)
                | none => pure (none : Option U.Expression)
              pure (U.Declaration.varDecl unl.1 validated_init, ⟨scopes1, unl.2.2⟩)

/-- `src/semantics/validator.rs` `validate_block`: push a frame, validate
the items, pop the frame. -/
def validateBlock (block : U.Block) (st : VState) : Except String (U.Block × VState) :=
  match block with
  | U.Block.mk items => do
      let (validated_items, st1) ← validateBlockItems items ⟨st.scopes ++ [[]], st.gen⟩
      pure (U.Block.mk validated_items, ⟨st1.scopes.dropLast, st1.gen⟩)

def validateBlockItems (items : List U.BlockItem) (st : VState) :
    Except String (List U.BlockItem × VState) :=
  match items with
  | [] => pure ([], st)
  | item :: t => do
      let (item', st1) ← validateBlockItem item st
      let (t', st2) ← validateBlockItems t st1
      pure (item' :: t', st2)

/-- `src/semantics/validator.rs` `validate_block_item`: declarations inside
a block are local (`is_global = false`). -/
def validateBlockItem (item : U.BlockItem) (st : VState) :
    Except String (U.BlockItem × VState) :=
  match item with
  | U.BlockItem.S stmt => do
      let (stmt', st1) ← validateStatement stmt st
      pure (U.BlockItem.S stmt', st1)
  | U.BlockItem.D decl => do
      let (decl', st1) ← validateDeclaration decl false st
      pure (U.BlockItem.D decl', st1)

/-- `src/semantics/validator.rs` `validate_statement`. -/
def validateStatement (stmt : U.Statement) (st : VState) :
    Except String (U.Statement × VState) :=
  match stmt with
  | U.Statement.ret expr => do
      let validated_expr ← validateExpression st.scopes expr
      pure (U.Statement.ret validated_expr, st)
  | U.Statement.expression expr => do
      let validated_expr ← validateExpression st.scopes expr
      pure (U.Statement.expression validated_expr, st)
  | U.Statement.empty => pure (U.Statement.empty, st)
  | U.Statement.ifStmt condition then_stat else_stat => do
      let validated_condition ← validateExpression st.scopes condition
      let (validated_then, st1) ← validateStatement then_stat st
      match else_stat with
      | some else_s => do
          let (validated_else, st2) ← validateStatement else_s st1
          pure (U.Statement.ifStmt validated_condition validated_then
            (some validated_else), st2)
      | none =>
          pure (U.Statement.ifStmt validated_condition validated_then none, st1)
  | U.Statement.compound b => do
      let (validated_block, st1) ← validateBlock b st
      pure (U.Statement.compound validated_block, st1)
  | U.Statement.whileStmt condition body => do
      let validated_condition ← validateExpression st.scopes condition
      let (validated_body, st1) ← validateStatement body st
      pure (U.Statement.whileStmt validated_condition validated_body, st1)
  | U.Statement.doWhile body condition => do
      let validated_condition ← validateExpression st.scopes condition
      let (validated_body, st1) ← validateStatement body st
      pure (U.Statement.doWhile validated_body validated_condition, st1)
  | U.Statement.breakStmt => pure (U.Statement.breakStmt, st)
  | U.Statement.continueStmt => pure (U.Statement.continueStmt, st)
  | U.Statement.forStmt init condition post body => do
      let stf : VState := ⟨st.scopes ++ [[]], st.gen⟩
      let (validated_init, st1) ←
        match init with
        | some item => do
            let (item', s) ← validateBlockItem item stf
            pure (some item', s)
        | none => pure ((none : Option U.BlockItem), stf)
      let validated_condition ←
        match condition with
        | some expr => do
            let e ← validateExpression st1.scopes expr
            pure (some e)
        | none => pure (none : Option U.Expression)
      let validated_post ←
        match post with
        | some expr => do
            let e ← validateExpression st1.scopes expr
            pure (some e)
        | none => pure (none : Option U.Expression)
      let (validated_body, st2) ← validateStatement body st1
      pure (U.Statement.forStmt validated_init validated_condition validated_post
        validated_body, ⟨st2.scopes.dropLast, st2.gen⟩)

end

/-- The loop of `validate_program` over the top-level declarations
(`is_global = true`). -/
def validateDecls : List U.Declaration → VState →
    Except String (List U.Declaration × VState)
  | [], st => pure ([], st)
  | d :: t, st => do
      let (d', st1) ← validateDeclaration d true st
      let (t', st2) ← validateDecls t st1
      pure (d' :: t', st2)

/-- `src/semantics/validator.rs` `validate_program`: enter the global
scope (kept for the whole run), then validate every declaration as
global. -/
def validate_program (prog : U.Program) (gen : Nat) :
    Except String (U.Program × VState) := do
  let (decls, st') ← validateDecls prog.declarations ⟨[[]], gen⟩
  pure (⟨decls⟩, st')

end V


namespace V

theorem updateLast_concat (l : List Frame) (a : Frame) (f : Frame → Frame) :
    updateLast (l ++ [a]) f = l ++ [f a] := by
  induction l with
  | nil => rfl
  | cons x t ih =>
      rcases hc : t ++ [a] with _ | ⟨y, r⟩
      · exact absurd hc (by simp)
      · show updateLast (x :: (t ++ [a])) f = x :: (t ++ [f a])
        rw [hc]
        show x :: updateLast (y :: r) f = x :: (t ++ [f a])
        rw [← hc, ih]

/-- Whether the current frame blocks a function declaration of `name`: it
does exactly when it holds an entry without external linkage. -/
def currentFrameBlocksFunction (f : Frame) (name : String) : Bool :=
  match alookup f name with
  | some info => !info.has_external_linkage
  | none => false

theorem functionDupCheck_concat (outer : List Frame) (f : Frame) (name : String) :
    functionDupCheck (outer ++ [f]) name =
      if currentFrameBlocksFunction f name then Except.error (dupFnMsg name)
      else pure () := by
  unfold functionDupCheck currentFrameBlocksFunction
  rw [List.getLast?_concat]
  cases hl : alookup f name with
  | none => simp [hl]
  | some info =>
      cases hlink : info.has_external_linkage <;> simp [hl, hlink]

theorem insertLastFrame_concat (outer : List Frame) (f : Frame) (k : String)
    (v : IdentifierInfo) :
    insertLastFrame (outer ++ [f]) k v = pure (outer ++ [minsert f k v]) := by
  cases outer with
  | nil => rfl
  | cons o os =>
      show pure (updateLast ((o :: os) ++ [f]) _) = _
      rw [updateLast_concat]

/-- The parameter loop succeeds on pairwise-distinct parameters absent from
the freshly pushed frame, staying inside that frame. -/
theorem validateParams_ok (fname : String) (params : List String) :
    ∀ (pre : List Frame) (cur : Frame) (g : Nat), params.Nodup →
      (∀ p ∈ params, containsKey cur p = false) →
      ∃ ps' cur' g', validateParams fname params ⟨pre ++ [cur], g⟩ =
        Except.ok (ps', ⟨pre ++ [cur'], g'⟩) := by
  induction params with
  | nil =>
      intro pre cur g _ _
      exact ⟨[], cur, g, rfl⟩
  | cons p rest ih =>
      intro pre cur g hnod habs
      have hget : (pre ++ [cur]).getLast? = some cur := List.getLast?_concat pre
      have hcont : containsKey cur p = false := habs p (List.mem_cons_self p rest)
      have hnod' : rest.Nodup := (List.nodup_cons.mp hnod).2
      have hpne : p ∉ rest := (List.nodup_cons.mp hnod).1
      have habs' : ∀ q ∈ rest,
          containsKey (minsert cur p ⟨(generate_unique_name p g).1, false⟩) q = false := by
        intro q hq
        have hqne : p ≠ q := fun he => hpne (he ▸ hq)
        have hq0 := habs q (List.mem_cons_of_mem p hq)
        simp only [containsKey] at hq0 ⊢
        rw [alookup_minsert_ne _ _ _ _ hqne]
        exact hq0
      obtain ⟨ps', cur', g', hrec⟩ := ih pre
        (minsert cur p ⟨(generate_unique_name p g).1, false⟩)
        (generate_unique_name p g).2 hnod' habs'
      refine ⟨(generate_unique_name p g).1 :: ps', cur', g', ?_⟩
      unfold validateParams
      rw [hget]
      simp only [hcont, Bool.false_eq_true, if_false]
      rw [updateLast_concat]
      simp only [Bind.bind, Except.bind, hrec]
      rfl

end V

namespace V

/-- A bodyless function declaration whose name is not blocked by the
current frame: validation succeeds, keeps the function's name, and records
it with external linkage in the current frame; outer frames are untouched
and never consulted. -/
theorem validateDeclaration_function_bodyless (outer : List Frame) (f : Frame)
    (g : Nat) (ig : Bool) (name : String) (params : List String)
    (hnod : params.Nodup)
    (hnb : currentFrameBlocksFunction f name = false) :
    ∃ ps' g', validateDeclaration (U.Declaration.function name params none) ig
      ⟨outer ++ [f], g⟩ =
      Except.ok (U.Declaration.function name ps' none,
        ⟨outer ++ [minsert f name ⟨name, true⟩], g'⟩) := by
  obtain ⟨ps', cur', g', hparams⟩ := validateParams_ok name params
    (outer ++ [minsert f name ⟨name, true⟩]) [] g hnod (fun p _ => rfl)
  refine ⟨ps', g', ?_⟩
  unfold validateDeclaration
  simp only [Option.isSome_none, Bool.and_false, Bool.false_eq_true, if_false,
    Bind.bind, Except.bind]
  rw [functionDupCheck_concat, hnb]
  simp only [Bool.false_eq_true, if_false]
  rw [insertLastFrame_concat]
  simp only [pure, Except.pure]
  rw [hparams]
  simp only [List.dropLast_concat]

/-- A function declaration blocked by an unlinked same-name entry in the
current frame fails with the duplicate-declaration error, whatever the
outer frames hold. -/
theorem validateDeclaration_function_blocked (outer : List Frame) (f : Frame)
    (g : Nat) (ig : Bool) (name : String) (params : List String)
    (hb : currentFrameBlocksFunction f name = true) :
    validateDeclaration (U.Declaration.function name params none) ig
      ⟨outer ++ [f], g⟩ = Except.error (dupFnMsg name) := by
  unfold validateDeclaration
  simp only [Option.isSome_none, Bool.and_false, Bool.false_eq_true, if_false,
    Bind.bind, Except.bind]
  rw [functionDupCheck_concat, hb]
  simp

/-- A variable declaration is a duplicate exactly when the current frame
holds *any* same-name entry (linked or not). -/
theorem validateDeclaration_var_hit (outer : List Frame) (f : Frame) (g : Nat)
    (ig : Bool) (name : String) (h : (alookup f name).isSome) :
    validateDeclaration (U.Declaration.varDecl name none) ig ⟨outer ++ [f], g⟩ =
      Except.error (dupVarMsg name) := by
  unfold validateDeclaration
  show (match (outer ++ [f]).getLast? with
    | none => Except.error (panicEmptyScopes)
    | some map => _) = _
  rw [List.getLast?_concat]
  simp only [containsKey, h, if_true]

/-- A variable declaration absent from the current frame succeeds: a global
keeps its name with external linkage, a local is renamed from the shared
counter without linkage; outer frames are untouched. -/
theorem validateDeclaration_var_miss (outer : List Frame) (f : Frame) (g : Nat)
    (ig : Bool) (name : String) (h : alookup f name = none) :
    validateDeclaration (U.Declaration.varDecl name none) ig ⟨outer ++ [f], g⟩ =
      Except.ok (U.Declaration.varDecl
          (if ig then name else name ++ "." ++ toString g) none,
        ⟨outer ++ [minsert f name
          ⟨(if ig then name else name ++ "." ++ toString g), ig⟩],
         if ig then g else g + 1⟩) := by
  unfold validateDeclaration
  show (match (outer ++ [f]).getLast? with
    | none => Except.error (panicEmptyScopes)
    | some map => _) = _
  rw [List.getLast?_concat]
  simp only [containsKey, h, Option.isSome_none, Bool.false_eq_true, if_false]
  cases ig with
  | true =>
      simp only [if_true]
      rw [updateLast_concat]
      rfl
  | false =>
      simp only [Bool.false_eq_true, if_false]
      rw [updateLast_concat]
      rfl

end V

namespace V

/-- C6 counterexample: at the global scope, the bodyless declaration
`int foo(void);` enters `foo` with external linkage; the following
top-level variable declaration of `foo` is nevertheless rejected as a
duplicate declaration — the variable arm checks `contains_key` on the
current frame regardless of linkage, contradicting the claim that a
pre-existing entry with external linkage never makes a new declaration a
duplicate. -/
theorem linked_entry_still_blocks_variable :
    validate_program ⟨[U.Declaration.function ("foo") ([]) none,
      U.Declaration.varDecl ("foo") none]⟩ 0 =
      Except.error (dupVarMsg ("foo")) := by
  rfl

/-- C6 (amended: only *function* declarations ignore linked entries; a
*variable* declaration is a duplicate whenever the current frame holds any
same-name entry, linked or not): every declaration is checked only against
the innermost frame — entries in outer frames (quantified arbitrarily
here) never conflict; a function declaration is rejected exactly when the
current frame holds an unlinked same-name entry; a variable declaration is
rejected exactly when the current frame holds any same-name entry. -/
theorem duplicate_check_uses_current_frame_only
    (outer : List Frame) (f : Frame) (g : Nat) (ig : Bool) (name : String)
    (params : List String) (hnod : params.Nodup) :
    (currentFrameBlocksFunction f name = true →
      validateDeclaration (U.Declaration.function name params none) ig
        ⟨outer ++ [f], g⟩ = Except.error (dupFnMsg name)) ∧
    (currentFrameBlocksFunction f name = false →
      ∃ ps' g', validateDeclaration (U.Declaration.function name params none) ig
        ⟨outer ++ [f], g⟩ =
        Except.ok (U.Declaration.function name ps' none,
          ⟨outer ++ [minsert f name ⟨name, true⟩], g'⟩)) ∧
    ((alookup f name).isSome →
      validateDeclaration (U.Declaration.varDecl name none) ig ⟨outer ++ [f], g⟩ =
        Except.error (dupVarMsg name)) ∧
    (alookup f name = none →
      validateDeclaration (U.Declaration.varDecl name none) ig ⟨outer ++ [f], g⟩ =
        Except.ok (U.Declaration.varDecl
            (if ig then name else name ++ "." ++ toString g) none,
          ⟨outer ++ [minsert f name
            ⟨(if ig then name else name ++ "." ++ toString g), ig⟩],
           if ig then g else g + 1⟩)) := by
  refine ⟨?_, ?_, ?_, ?_⟩
  · intro hb
    exact validateDeclaration_function_blocked outer f g ig name params hb
  · intro hnb
    exact validateDeclaration_function_bodyless outer f g ig name params hnod hnb
  · intro h
    exact validateDeclaration_var_hit outer f g ig name h
  · intro h
    exact validateDeclaration_var_miss outer f g ig name h

/-- Witness for C6's amended theorem at concrete frames (the outer frame
deliberately holds clashing names, showing it is never consulted). -/
theorem duplicate_check_uses_current_frame_only_witness :
    (validateDeclaration (U.Declaration.function ("x") ([]) none) false
      ⟨[[(("x"), ⟨"x", true⟩)]] ++ [[(("x"), ⟨"x.0", false⟩)]], 5⟩ =
      Except.error (dupFnMsg ("x"))) ∧
    (∃ ps' g', validateDeclaration (U.Declaration.function ("x") ([]) none) false
      ⟨[[(("x"), ⟨"x.0", false⟩)]] ++ [[(("x"), ⟨"x", true⟩)]], 5⟩ =
      Except.ok (U.Declaration.function ("x") ps' none,
        ⟨[[(("x"), ⟨"x.0", false⟩)]] ++
          [minsert [(("x"), ⟨"x", true⟩)] ("x") ⟨"x", true⟩], g'⟩)) ∧
    (validateDeclaration (U.Declaration.varDecl ("x") none) false
      ⟨[] ++ [[(("x"), ⟨"x", true⟩)]], 5⟩ = Except.error (dupVarMsg ("x"))) ∧
    (validateDeclaration (U.Declaration.varDecl ("x") none) false
      ⟨[[(("x"), ⟨"x.0", false⟩)]] ++ [[]], 5⟩ =
      Except.ok (U.Declaration.varDecl (if false then ("x") else ("x") ++ "." ++ toString 5)
          none,
        ⟨[[(("x"), ⟨"x.0", false⟩)]] ++ [minsert [] ("x")
          ⟨(if false then ("x") else ("x") ++ "." ++ toString 5), false⟩],
         if false then 5 else 5 + 1⟩)) := by
  refine ⟨?_, ?_, ?_, ?_⟩
  · exact (duplicate_check_uses_current_frame_only [[(("x"), ⟨"x", true⟩)]]
      [(("x"), ⟨"x.0", false⟩)] 5 false ("x") [] (by simp)).1 (by decide)
  · exact (duplicate_check_uses_current_frame_only [[(("x"), ⟨"x.0", false⟩)]]
      [(("x"), ⟨"x", true⟩)] 5 false ("x") [] (by simp)).2.1 (by decide)
  · exact (duplicate_check_uses_current_frame_only []
      [(("x"), ⟨"x", true⟩)] 5 false ("x") [] (by simp)).2.2.1 (by decide)
  · exact (duplicate_check_uses_current_frame_only [[(("x"), ⟨"x.0", false⟩)]]
      [] 5 false ("x") [] (by simp)).2.2.2 (by decide)

/-- C10: a function declaration carrying a body in a non-global position
always fails with the nested-function-definition error (before any scope
is consulted); a bodyless function declaration inside a block succeeds and
is entered into the current frame as an externally linked identifier under
its original, un-renamed name. -/
theorem nested_function_definition_rules :
    (∀ (name : String) (params : List String) (blk : U.Block) (st : VState),
      validateDeclaration (U.Declaration.function name params (some blk)) false st =
        Except.error (nestedFnMsg name)) ∧
    (∀ (outer : List Frame) (f : Frame) (g : Nat) (name : String)
        (params : List String), params.Nodup →
      currentFrameBlocksFunction f name = false →
      ∃ ps' g', validateDeclaration (U.Declaration.function name params none) false
          ⟨outer ++ [f], g⟩ =
        Except.ok (U.Declaration.function name ps' none,
          ⟨outer ++ [minsert f name ⟨name, true⟩], g'⟩) ∧
        alookup (minsert f name ⟨name, true⟩) name = some ⟨name, true⟩) := by
  constructor
  · intro name params blk st
    rfl
  · intro outer f g name params hnod hnb
    obtain ⟨ps', g', h⟩ :=
      validateDeclaration_function_bodyless outer f g false name params hnod hnb
    exact ⟨ps', g', h, alookup_minsert_self _ _ _⟩

/-- Witness for C10 at a concrete block-level declaration. -/
theorem nested_function_definition_rules_witness :
    (validateDeclaration (U.Declaration.function ("f") ([]) (some (U.Block.mk [])))
      false ⟨[[]], 0⟩ = Except.error (nestedFnMsg ("f"))) ∧
    (∃ ps' g', validateDeclaration (U.Declaration.function ("f") ([]) none) false
        ⟨[[(("y"), ⟨"y.0", false⟩)]] ++ [[]], 3⟩ =
      Except.ok (U.Declaration.function ("f") ps' none,
        ⟨[[(("y"), ⟨"y.0", false⟩)]] ++
          [minsert [] ("f") (⟨"f", true⟩ : IdentifierInfo)], g'⟩) ∧
      alookup (minsert [] ("f") (⟨"f", true⟩ : IdentifierInfo)) ("f") =
        some (⟨"f", true⟩ : IdentifierInfo)) := by
  constructor
  · exact nested_function_definition_rules.1 ("f") [] (U.Block.mk []) ⟨[[]], 0⟩
  · exact nested_function_definition_rules.2 [[(("y"), ⟨"y.0", false⟩)]] [] 3 ("f") []
      (by simp) (by decide)

end V

namespace V

/-- The spec's shadowing program `int x = 1; { int x = 2; return x; } return x;`
inside `main`. -/
def c7Prog : U.Program :=
  ⟨[U.Declaration.function ("main") ([]) (some (U.Block.mk [
    U.BlockItem.D (U.Declaration.varDecl ("x") (some (U.Expression.constant 1))),
    U.BlockItem.S (U.Statement.compound (U.Block.mk [
      U.BlockItem.D (U.Declaration.varDecl ("x") (some (U.Expression.constant 2))),
      U.BlockItem.S (U.Statement.ret (U.Expression.var ("x")))])),
    U.BlockItem.S (U.Statement.ret (U.Expression.var ("x")))]))]⟩

/-- Expected resolution: the outer `x` becomes `x.0`, the inner `x` becomes
the distinct `x.1`; the inner `return` uses `x.1`, the one after the block
uses `x.0`. -/
def c7Expected : U.Program :=
  ⟨[U.Declaration.function ("main") ([]) (some (U.Block.mk [
    U.BlockItem.D (U.Declaration.varDecl ("x.0") (some (U.Expression.constant 1))),
    U.BlockItem.S (U.Statement.compound (U.Block.mk [
      U.BlockItem.D (U.Declaration.varDecl ("x.1") (some (U.Expression.constant 2))),
      U.BlockItem.S (U.Statement.ret (U.Expression.var ("x.1")))])),
    U.BlockItem.S (U.Statement.ret (U.Expression.var ("x.0")))]))]⟩

/-- C7: identifier lookup searches the frame stack innermost-to-outermost
(the innermost frame's binding wins, otherwise the remaining stack is
searched); on the spec's shadowing program the inner declaration is
renamed to `x.1`, distinct from the outer `x.0`, inner uses resolve to
`x.1` and the use after the block to `x.0`; and a name found in no frame
is the undeclared-identifier error. -/
theorem identifier_lookup_innermost_to_outermost :
    (∀ (outer : List Frame) (f : Frame) (name : String),
      find_identifier (outer ++ [f]) name =
        (match alookup f name with
         | some info => some info
         | none => find_identifier outer name)) ∧
    (validate_program c7Prog 0 =
      Except.ok (c7Expected, ⟨[[(("main"), ⟨"main", true⟩)]], 2⟩) ∧
      ("x.1" : String) ≠ "x.0") ∧
    (∀ (scopes : List Frame) (name : String), find_identifier scopes name = none →
      validateExpression scopes (U.Expression.var name) =
        Except.error (undeclaredVarMsg name)) := by
  refine ⟨?_, ⟨by rfl, by decide⟩, ?_⟩
  · intro outer f name
    unfold find_identifier
    rw [List.reverse_append]
    show List.findSome? _ (f :: outer.reverse) = _
    cases hl : alookup f name with
    | some info => simp [List.findSome?, hl]
    | none => simp [List.findSome?, hl]
  · intro scopes name h
    unfold validateExpression
    rw [h]

/-- Witness for C7 at a concrete empty scope stack. -/
theorem identifier_lookup_innermost_to_outermost_witness :
    find_identifier [] ("y") = none ∧
    validateExpression [] (U.Expression.var ("y")) =
      Except.error (undeclaredVarMsg ("y")) :=
  ⟨rfl, identifier_lookup_innermost_to_outermost.2.2 [] ("y") rfl⟩

end V

namespace Ck

/-- `src/ast.rs` `checked::LoopId`. -/
abbrev LoopId := Nat

mutual

/-- `src/ast.rs` `checked::Statement`: loops carry an `id`, break/continue
carry a `target_id`; expressions are shared with the unchecked AST. -/
inductive Statement where
  | ret (e : U.Expression)
  | expression (e : U.Expression)
  | empty
  | ifStmt (condition : U.Expression) (then_stat : Statement) (else_stat : Option Statement)
  | compound (b : Block)
  | whileStmt (condition : U.Expression) (body : Statement) (id : LoopId)
  | doWhile (body : Statement) (condition : U.Expression) (id : LoopId)
  | forStmt (init : Option BlockItem) (condition : Option U.Expression)
      (post : Option U.Expression) (body : Statement) (id : LoopId)
  | breakStmt (target_id : LoopId)
  | continueStmt (target_id : LoopId)
deriving Repr

/-- `src/ast.rs` `checked::Block`. -/
inductive Block where
  | mk (blocks : List BlockItem)
deriving Repr

/-- `src/ast.rs` `checked::BlockItem`. -/
inductive BlockItem where
  | S (s : Statement)
  | D (d : Declaration)
deriving Repr

/-- `src/ast.rs` `checked::Declaration`. -/
inductive Declaration where
  | function (name : String) (params : List String) (body : Option Block)
  | varDecl (name : String) (init : Option U.Expression)
deriving Repr

end

/-- `src/ast.rs` `checked::Program`. -/
structure Program where
  declarations : List Declaration
deriving Repr

end Ck

namespace LL

def breakOutsideMsg : String :=
  sQuote ++ "break" ++ sQuote ++ " statement not in a loop"

def continueOutsideMsg : String :=
  sQuote ++ "continue" ++ sQuote ++ " statement not in a loop"

mutual

/-- `src/semantics/loop_labeler.rs` `label_statement`: loops mint a fresh
id from the shared generator and push it for the traversal of their body
(and, for `for`, of the init item); `break`/`continue` read the top of the
stack, an empty stack being the sole failure.  The `loop_id_stack` is
passed as a parameter (the source's push/pop pairs are balanced), `Vec`
order: the top is the last element. -/
def label_statement (stack : List Nat) (g : Nat) :
    U.Statement → Except String (Ck.Statement × Nat)
  | U.Statement.forStmt init condition post body => do
      let loop_id := g
      let (checked_init, g1) ←
        match init with
        | some i => do
            let (i', g') ← label_block_item (stack ++ [loop_id]) (g + 1) i
            pure (some i', g')
        | none => pure ((none : Option Ck.BlockItem), g + 1)
      let (checked_body, g2) ← label_statement (stack ++ [loop_id]) g1 body
      pure (Ck.Statement.forStmt checked_init condition post checked_body loop_id, g2)
  | U.Statement.whileStmt condition body => do
      let loop_id := g
      let (checked_body, g1) ← label_statement (stack ++ [loop_id]) (g + 1) body
      pure (Ck.Statement.whileStmt condition checked_body loop_id, g1)
  | U.Statement.doWhile body condition => do
      let loop_id := g
      let (checked_body, g1) ← label_statement (stack ++ [loop_id]) (g + 1) body
      pure (Ck.Statement.doWhile checked_body condition loop_id, g1)
  | U.Statement.breakStmt =>
      match stack.getLast? with
      | some target_id => pure (Ck.Statement.breakStmt target_id, g)
      | none => Except.error (breakOutsideMsg)
  | U.Statement.continueStmt =>
      match stack.getLast? with
      | some target_id => pure (Ck.Statement.continueStmt target_id, g)
      | none => Except.error (continueOutsideMsg)
  | U.Statement.ret e => pure (Ck.Statement.ret e, g)
  | U.Statement.expression e => pure (Ck.Statement.expression e, g)
  | U.Statement.empty => pure (Ck.Statement.empty, g)
  | U.Statement.compound b => do
      let (b', g') ← label_block stack g b
      pure (Ck.Statement.compound b', g')
  | U.Statement.ifStmt condition then_stat else_stat => do
      let (checked_then, g1) ← label_statement stack g then_stat
      match else_stat with
      | some s => do
          let (checked_else, g2) ← label_statement stack g1 s
          pure (Ck.Statement.ifStmt condition checked_then (some checked_else), g2)
      | none =>
          pure (Ck.Statement.ifStmt condition checked_then none, g1)

/-- `src/semantics/loop_labeler.rs` `label_block`. -/
def label_block (stack : List Nat) (g : Nat) :
    U.Block → Except String (Ck.Block × Nat)
  | U.Block.mk items => do
      let (items', g') ← label_items stack g items
      pure (Ck.Block.mk items', g')

def label_items (stack : List Nat) (g : Nat) :
    List U.BlockItem → Except String (List Ck.BlockItem × Nat)
  | [] => pure ([], g)
  | item :: t => do
      let (item', g1) ← label_block_item stack g item
      let (t', g2) ← label_items stack g1 t
      pure (item' :: t', g2)

/-- `src/semantics/loop_labeler.rs` `label_block_item`. -/
def label_block_item (stack : List Nat) (g : Nat) :
    U.BlockItem → Except String (Ck.BlockItem × Nat)
  | U.BlockItem.S stmt => do
      let (s', g') ← label_statement stack g stmt
      pure (Ck.BlockItem.S s', g')
  | U.BlockItem.D decl => do
      let (d', g') ← label_declaration stack g decl
      pure (Ck.BlockItem.D d', g')

/-- `src/semantics/loop_labeler.rs` `label_declaration`. -/
def label_declaration (stack : List Nat) (g : Nat) :
    U.Declaration → Except String (Ck.Declaration × Nat)
  | U.Declaration.function name params body =>
      match body with
      | some b => do
          let (b', g') ← label_block stack g b
          pure (Ck.Declaration.function name params (some b'), g')
      | none => pure (Ck.Declaration.function name params none, g)
  | U.Declaration.varDecl name init => pure (Ck.Declaration.varDecl name init, g)

end

def label_decls (stack : List Nat) (g : Nat) :
    List U.Declaration → Except String (List Ck.Declaration × Nat)
  | [] => pure ([], g)
  | d :: t => do
      let (d', g1) ← label_declaration stack g d
      let (t', g2) ← label_decls stack g1 t
      pure (d' :: t', g2)

/-- `src/semantics/loop_labeler.rs` `label_program`: a fresh labeler has an
empty loop-id stack. -/
def label_program (prog : U.Program) (g : Nat) :
    Except String (Ck.Program × Nat) := do
  let (decls, g') ← label_decls [] g prog.declarations
  pure (⟨decls⟩, g')

end LL

/-- Success of an `Except` computation. -/
def isOkE {α : Type} : Except String α → Bool
  | Except.ok _ => true
  | Except.error _ => false

namespace LL

mutual

/-- Spec-side: every `break`/`continue` of the (unchecked) statement lies
inside some loop construct, given whether the statement itself already
sits inside a loop (the labeler's stack being nonempty). -/
def stmtOk (inLoop : Bool) : U.Statement → Bool
  | U.Statement.breakStmt => inLoop
  | U.Statement.continueStmt => inLoop
  | U.Statement.whileStmt _ body => stmtOk true body
  | U.Statement.doWhile body _ => stmtOk true body
  | U.Statement.forStmt init _ _ body =>
      (match init with
       | some i => itemOk true i
       | none => true) && stmtOk true body
  | U.Statement.ifStmt _ then_stat else_stat =>
      stmtOk inLoop then_stat &&
      (match else_stat with
       | some s => stmtOk inLoop s
       | none => true)
  | U.Statement.compound b => blockOk inLoop b
  | U.Statement.ret _ => true
  | U.Statement.expression _ => true
  | U.Statement.empty => true

def blockOk (inLoop : Bool) : U.Block → Bool
  | U.Block.mk items => itemsOk inLoop items

def itemsOk (inLoop : Bool) : List U.BlockItem → Bool
  | [] => true
  | i :: t => itemOk inLoop i && itemsOk inLoop t

def itemOk (inLoop : Bool) : U.BlockItem → Bool
  | U.BlockItem.S s => stmtOk inLoop s
  | U.BlockItem.D d => declOk inLoop d

def declOk (inLoop : Bool) : U.Declaration → Bool
  | U.Declaration.function _ _ (some b) => blockOk inLoop b
  | U.Declaration.function _ _ none => true
  | U.Declaration.varDecl _ _ => true

end

def declsOk (inLoop : Bool) : List U.Declaration → Bool
  | [] => true
  | d :: t => declOk inLoop d && declsOk inLoop t

/-- Spec-side: no break/continue outside a loop anywhere in the program. -/
def progOk (p : U.Program) : Bool := declsOk false p.declarations

mutual

/-- Spec-side: every break/continue in the labeled output carries the id
at the top of the enclosing-loop stack (its innermost enclosing loop). -/
def wlStmt (stack : List Nat) : Ck.Statement → Bool
  | Ck.Statement.breakStmt t => stack.getLast? == some t
  | Ck.Statement.continueStmt t => stack.getLast? == some t
  | Ck.Statement.whileStmt _ body id => wlStmt (stack ++ [id]) body
  | Ck.Statement.doWhile body _ id => wlStmt (stack ++ [id]) body
  | Ck.Statement.forStmt init _ _ body id =>
      (match init with
       | some i => wlItem (stack ++ [id]) i
       | none => true) && wlStmt (stack ++ [id]) body
  | Ck.Statement.ifStmt _ then_stat else_stat =>
      wlStmt stack then_stat &&
      (match else_stat with
       | some s => wlStmt stack s
       | none => true)
  | Ck.Statement.compound b => wlBlock stack b
  | Ck.Statement.ret _ => true
  | Ck.Statement.expression _ => true
  | Ck.Statement.empty => true

def wlBlock (stack : List Nat) : Ck.Block → Bool
  | Ck.Block.mk items => wlItems stack items

def wlItems (stack : List Nat) : List Ck.BlockItem → Bool
  | [] => true
  | i :: t => wlItem stack i && wlItems stack t

def wlItem (stack : List Nat) : Ck.BlockItem → Bool
  | Ck.BlockItem.S s => wlStmt stack s
  | Ck.BlockItem.D d => wlDecl stack d

def wlDecl (stack : List Nat) : Ck.Declaration → Bool
  | Ck.Declaration.function _ _ (some b) => wlBlock stack b
  | Ck.Declaration.function _ _ none => true
  | Ck.Declaration.varDecl _ _ => true

end

def wlDecls (stack : List Nat) : List Ck.Declaration → Bool
  | [] => true
  | d :: t => wlDecl stack d && wlDecls stack t

def wlProg (p : Ck.Program) : Bool := wlDecls [] p.declarations

mutual

/-- The loop ids assigned in a labeled statement, outermost first. -/
def idsStmt : Ck.Statement → List Nat
  | Ck.Statement.whileStmt _ body id => id :: idsStmt body
  | Ck.Statement.doWhile body _ id => id :: idsStmt body
  | Ck.Statement.forStmt init _ _ body id =>
      id :: ((match init with
              | some i => idsItem i
              | none => []) ++ idsStmt body)
  | Ck.Statement.ifStmt _ then_stat else_stat =>
      idsStmt then_stat ++
      (match else_stat with
       | some s => idsStmt s
       | none => [])
  | Ck.Statement.compound b => idsBlock b
  | Ck.Statement.ret _ => []
  | Ck.Statement.expression _ => []
  | Ck.Statement.empty => []
  | Ck.Statement.breakStmt _ => []
  | Ck.Statement.continueStmt _ => []

def idsBlock : Ck.Block → List Nat
  | Ck.Block.mk items => idsItems items

def idsItems : List Ck.BlockItem → List Nat
  | [] => []
  | i :: t => idsItem i ++ idsItems t

def idsItem : Ck.BlockItem → List Nat
  | Ck.BlockItem.S s => idsStmt s
  | Ck.BlockItem.D d => idsDecl d

def idsDecl : Ck.Declaration → List Nat
  | Ck.Declaration.function _ _ (some b) => idsBlock b
  | Ck.Declaration.function _ _ none => []
  | Ck.Declaration.varDecl _ _ => []

end

def idsDecls : List Ck.Declaration → List Nat
  | [] => []
  | d :: t => idsDecl d ++ idsDecls t

def idsProg (p : Ck.Program) : List Nat := idsDecls p.declarations

end LL

namespace LL

mutual

/-- Labeling a statement: success is exactly `stmtOk` (break/continue with
an empty stack being the sole failure); on success the generator is
monotone, the output is well-labeled w.r.t. the incoming stack, and the
minted loop ids are fresh, bounded and pairwise distinct. -/
theorem label_statement_spec (stmt : U.Statement) :
    ∀ (stack : List Nat) (g : Nat),
    isOkE (label_statement stack g stmt) = stmtOk (!stack.isEmpty) stmt ∧
    (∀ out g', label_statement stack g stmt = Except.ok (out, g') →
      g ≤ g' ∧ wlStmt stack out = true ∧
      (∀ i ∈ idsStmt out, g ≤ i ∧ i < g') ∧ (idsStmt out).Nodup) := by
  intro stack g
  cases stmt with
  | breakStmt =>
      cases hl : stack.getLast? with
      | none =>
          have he : stack = [] := List.getLast?_eq_none_iff.mp hl
          subst he
          exact ⟨rfl, by intro out g' h; exact absurd h (by simp [label_statement])⟩
      | some t =>
          have hne : stack ≠ [] := by
            intro he
            rw [he] at hl
            exact absurd hl (by simp)
          constructor
          · simp [label_statement, hl, isOkE, stmtOk, pure, Except.pure,
              List.isEmpty_eq_false.mpr hne]
          · intro out g' h
            simp only [label_statement, hl, pure, Except.pure, Except.ok.injEq,
              Prod.mk.injEq] at h
            obtain ⟨rfl, rfl⟩ := h
            exact ⟨le_refl g, by simp [wlStmt, hl], by simp [idsStmt], by simp [idsStmt]⟩
  | continueStmt =>
      cases hl : stack.getLast? with
      | none =>
          have he : stack = [] := List.getLast?_eq_none_iff.mp hl
          subst he
          exact ⟨rfl, by intro out g' h; exact absurd h (by simp [label_statement])⟩
      | some t =>
          have hne : stack ≠ [] := by
            intro he
            rw [he] at hl
            exact absurd hl (by simp)
          constructor
          · simp [label_statement, hl, isOkE, stmtOk, pure, Except.pure,
              List.isEmpty_eq_false.mpr hne]
          · intro out g' h
            simp only [label_statement, hl, pure, Except.pure, Except.ok.injEq,
              Prod.mk.injEq] at h
            obtain ⟨rfl, rfl⟩ := h
            exact ⟨le_refl g, by simp [wlStmt, hl], by simp [idsStmt], by simp [idsStmt]⟩
  | ret e =>
      refine ⟨rfl, ?_⟩
      intro out g' h
      simp only [label_statement, pure, Except.pure, Except.ok.injEq, Prod.mk.injEq] at h
      obtain ⟨rfl, rfl⟩ := h
      exact ⟨le_refl g, rfl, by simp [idsStmt], by simp [idsStmt]⟩
  | expression e =>
      refine ⟨rfl, ?_⟩
      intro out g' h
      simp only [label_statement, pure, Except.pure, Except.ok.injEq, Prod.mk.injEq] at h
      obtain ⟨rfl, rfl⟩ := h
      exact ⟨le_refl g, rfl, by simp [idsStmt], by simp [idsStmt]⟩
  | empty =>
      refine ⟨rfl, ?_⟩
      intro out g' h
      simp only [label_statement, pure, Except.pure, Except.ok.injEq, Prod.mk.injEq] at h
      obtain ⟨rfl, rfl⟩ := h
      exact ⟨le_refl g, rfl, by simp [idsStmt], by simp [idsStmt]⟩
  | compound b =>
      obtain ⟨hok, hsucc⟩ := label_block_spec b stack g
      constructor
      · show isOkE (label_statement stack g (U.Statement.compound b)) = blockOk (!stack.isEmpty) b
        rw [← hok]
        cases hs : label_block stack g b with
        | error e => simp [label_statement, Bind.bind, Except.bind, hs, isOkE, pure, Except.pure]
        | ok p => simp [label_statement, Bind.bind, Except.bind, hs, isOkE, pure, Except.pure]
      · intro out g' h
        cases hs : label_block stack g b with
        | error e =>
            rw [label_statement] at h
            simp only [Bind.bind, Except.bind, hs] at h
            exact absurd h (by simp)
        | ok p =>
            obtain ⟨b', g1⟩ := p
            obtain ⟨hg, hwl, hrange, hnd⟩ := hsucc b' g1 hs
            rw [label_statement] at h
            simp only [Bind.bind, Except.bind, hs, pure, Except.pure, Except.ok.injEq,
              Prod.mk.injEq] at h
            obtain ⟨rfl, rfl⟩ := h
            exact ⟨hg, hwl, hrange, hnd⟩
  | ifStmt cond then_stat else_stat =>
      obtain ⟨hok1, hsucc1⟩ := label_statement_spec then_stat stack g
      constructor
      · cases hs1 : label_statement stack g then_stat with
        | error e =>
            have h1 : stmtOk (!stack.isEmpty) then_stat = false := by
              rw [← hok1, hs1]
              rfl
            cases else_stat with
            | none => simp [label_statement, Bind.bind, Except.bind, hs1, isOkE,
                stmtOk, h1, pure, Except.pure]
            | some s => simp [label_statement, Bind.bind, Except.bind, hs1, isOkE,
                stmtOk, h1, pure, Except.pure]
        | ok p =>
            obtain ⟨t', g1⟩ := p
            have h1 : stmtOk (!stack.isEmpty) then_stat = true := by
              rw [← hok1, hs1]
              rfl
            cases else_stat with
            | none =>
                simp [label_statement, Bind.bind, Except.bind, hs1, isOkE, stmtOk,
                  pure, Except.pure, h1]
            | some s =>
                obtain ⟨hok2, _⟩ := label_statement_spec s stack g1
                cases hs2 : label_statement stack g1 s with
                | error e =>
                    have h2 : stmtOk (!stack.isEmpty) s = false := by
                      rw [← hok2, hs2]
                      rfl
                    simp [label_statement, Bind.bind, Except.bind, hs1, hs2, isOkE,
                      stmtOk, h1, h2, pure, Except.pure]
                | ok q =>
                    have h2 : stmtOk (!stack.isEmpty) s = true := by
                      rw [← hok2, hs2]
                      rfl
                    simp [label_statement, Bind.bind, Except.bind, hs1, hs2, isOkE,
                      stmtOk, pure, Except.pure, h1, h2]
      · intro out g' h
        cases hs1 : label_statement stack g then_stat with
        | error e =>
            rw [label_statement] at h
            simp only [Bind.bind, Except.bind, hs1] at h
            exact absurd h (by simp)
        | ok p =>
            obtain ⟨t', g1⟩ := p
            obtain ⟨hg1, hwl1, hrange1, hnd1⟩ := hsucc1 t' g1 hs1
            cases else_stat with
            | none =>
                rw [label_statement] at h
                simp only [Bind.bind, Except.bind, hs1, pure, Except.pure,
                  Except.ok.injEq, Prod.mk.injEq] at h
                obtain ⟨rfl, rfl⟩ := h
                refine ⟨hg1, ?_, ?_, ?_⟩
                · simp [wlStmt, hwl1]
                · intro i hi
                  simp only [idsStmt, List.append_nil] at hi
                  exact hrange1 i hi
                · simpa [idsStmt] using hnd1
            | some s =>
                obtain ⟨_, hsucc2⟩ := label_statement_spec s stack g1
                cases hs2 : label_statement stack g1 s with
                | error e =>
                    rw [label_statement] at h
                    simp only [Bind.bind, Except.bind, hs1, hs2] at h
                    exact absurd h (by simp)
                | ok q =>
                    obtain ⟨e', g2⟩ := q
                    obtain ⟨hg2, hwl2, hrange2, hnd2⟩ := hsucc2 e' g2 hs2
                    rw [label_statement] at h
                    simp only [Bind.bind, Except.bind, hs1, hs2, pure, Except.pure,
                      Except.ok.injEq, Prod.mk.injEq] at h
                    obtain ⟨rfl, rfl⟩ := h
                    refine ⟨by omega, ?_, ?_, ?_⟩
                    · simp [wlStmt, hwl1, hwl2]
                    · intro i hi
                      simp only [idsStmt, List.mem_append] at hi
                      rcases hi with hi | hi
                      · have := hrange1 i hi
                        omega
                      · have := hrange2 i hi
                        omega
                    · simp only [idsStmt]
                      rw [List.nodup_append]
                      refine ⟨hnd1, hnd2, ?_⟩
                      intro a ha hb
                      have h1 := hrange1 a ha
                      have h2 := hrange2 a hb
                      omega
  | whileStmt cond body =>
      obtain ⟨hok, hsucc⟩ := label_statement_spec body (stack ++ [g]) (g + 1)
      have hie : ((stack ++ [g]).isEmpty : Bool) = false := by simp
      constructor
      · cases hs : label_statement (stack ++ [g]) (g + 1) body with
        | error e =>
            have h1 : stmtOk true body = false := by
              have hcv := hok
              rw [hie] at hcv
              simp only [Bool.not_false] at hcv
              rw [← hcv, hs]
              rfl
            simp [label_statement, Bind.bind, Except.bind, hs, isOkE, stmtOk, h1, pure, Except.pure]
        | ok p =>
            have h1 : stmtOk true body = true := by
              have hcv := hok
              rw [hie] at hcv
              simp only [Bool.not_false] at hcv
              rw [← hcv, hs]
              rfl
            simp [label_statement, Bind.bind, Except.bind, hs, isOkE, stmtOk,
              pure, Except.pure, h1]
      · intro out g' h
        cases hs : label_statement (stack ++ [g]) (g + 1) body with
        | error e =>
            rw [label_statement] at h
            simp only [Bind.bind, Except.bind, hs] at h
            exact absurd h (by simp)
        | ok p =>
            obtain ⟨b', g1⟩ := p
            obtain ⟨hg, hwl, hrange, hnd⟩ := hsucc b' g1 hs
            rw [label_statement] at h
            simp only [Bind.bind, Except.bind, hs, pure, Except.pure, Except.ok.injEq,
              Prod.mk.injEq] at h
            obtain ⟨rfl, rfl⟩ := h
            refine ⟨by omega, ?_, ?_, ?_⟩
            · simpa [wlStmt] using hwl
            · intro i hi
              simp only [idsStmt, List.mem_cons] at hi
              rcases hi with rfl | hi
              · omega
              · have := hrange i hi
                omega
            · simp only [idsStmt, List.nodup_cons]
              refine ⟨?_, hnd⟩
              intro hmem
              have := hrange g hmem
              omega
  | doWhile body cond =>
      obtain ⟨hok, hsucc⟩ := label_statement_spec body (stack ++ [g]) (g + 1)
      have hie : ((stack ++ [g]).isEmpty : Bool) = false := by simp
      constructor
      · cases hs : label_statement (stack ++ [g]) (g + 1) body with
        | error e =>
            have h1 : stmtOk true body = false := by
              have hcv := hok
              rw [hie] at hcv
              simp only [Bool.not_false] at hcv
              rw [← hcv, hs]
              rfl
            simp [label_statement, Bind.bind, Except.bind, hs, isOkE, stmtOk, h1, pure, Except.pure]
        | ok p =>
            have h1 : stmtOk true body = true := by
              have hcv := hok
              rw [hie] at hcv
              simp only [Bool.not_false] at hcv
              rw [← hcv, hs]
              rfl
            simp [label_statement, Bind.bind, Except.bind, hs, isOkE, stmtOk,
              pure, Except.pure, h1]
      · intro out g' h
        cases hs : label_statement (stack ++ [g]) (g + 1) body with
        | error e =>
            rw [label_statement] at h
            simp only [Bind.bind, Except.bind, hs] at h
            exact absurd h (by simp)
        | ok p =>
            obtain ⟨b', g1⟩ := p
            obtain ⟨hg, hwl, hrange, hnd⟩ := hsucc b' g1 hs
            rw [label_statement] at h
            simp only [Bind.bind, Except.bind, hs, pure, Except.pure, Except.ok.injEq,
              Prod.mk.injEq] at h
            obtain ⟨rfl, rfl⟩ := h
            refine ⟨by omega, ?_, ?_, ?_⟩
            · simpa [wlStmt] using hwl
            · intro i hi
              simp only [idsStmt, List.mem_cons] at hi
              rcases hi with rfl | hi
              · omega
              · have := hrange i hi
                omega
            · simp only [idsStmt, List.nodup_cons]
              refine ⟨?_, hnd⟩
              intro hmem
              have := hrange g hmem
              omega
  | forStmt init cond post body =>
      have hie : ((stack ++ [g]).isEmpty : Bool) = false := by simp
      cases init with
      | none =>
          obtain ⟨hok, hsucc⟩ := label_statement_spec body (stack ++ [g]) (g + 1)
          constructor
          · cases hs : label_statement (stack ++ [g]) (g + 1) body with
            | error e =>
                have h1 : stmtOk true body = false := by
                  have hcv := hok
                  rw [hie] at hcv
                  simp only [Bool.not_false] at hcv
                  rw [← hcv, hs]
                  rfl
                simp [label_statement, Bind.bind, Except.bind, hs, isOkE, stmtOk,
                  pure, Except.pure, h1]
            | ok p =>
                have h1 : stmtOk true body = true := by
                  have hcv := hok
                  rw [hie] at hcv
                  simp only [Bool.not_false] at hcv
                  rw [← hcv, hs]
                  rfl
                simp [label_statement, Bind.bind, Except.bind, hs, isOkE, stmtOk,
                  pure, Except.pure, h1]
          · intro out g' h
            cases hs : label_statement (stack ++ [g]) (g + 1) body with
            | error e =>
                rw [label_statement] at h
                simp only [Bind.bind, Except.bind, hs, pure, Except.pure] at h
                exact absurd h (by simp)
            | ok p =>
                obtain ⟨b', g1⟩ := p
                obtain ⟨hg, hwl, hrange, hnd⟩ := hsucc b' g1 hs
                rw [label_statement] at h
                simp only [Bind.bind, Except.bind, hs, pure, Except.pure,
                  Except.ok.injEq, Prod.mk.injEq] at h
                obtain ⟨rfl, rfl⟩ := h
                refine ⟨by omega, ?_, ?_, ?_⟩
                · simpa [wlStmt] using hwl
                · intro i hi
                  simp only [idsStmt, List.nil_append, List.mem_cons] at hi
                  rcases hi with rfl | hi
                  · omega
                  · have := hrange i hi
                    omega
                · simp only [idsStmt, List.nil_append, List.nodup_cons]
                  refine ⟨?_, hnd⟩
                  intro hmem
                  have := hrange g hmem
                  omega
      | some i0 =>
          obtain ⟨hoki, hsucci⟩ := label_block_item_spec i0 (stack ++ [g]) (g + 1)
          constructor
          · cases hsi : label_block_item (stack ++ [g]) (g + 1) i0 with
            | error e =>
                have h1 : itemOk true i0 = false := by
                  have hcv := hoki
                  rw [hie] at hcv
                  simp only [Bool.not_false] at hcv
                  rw [← hcv, hsi]
                  rfl
                simp [label_statement, Bind.bind, Except.bind, hsi, isOkE, stmtOk, h1, pure, Except.pure]
            | ok p =>
                obtain ⟨i', g1⟩ := p
                have h1 : itemOk true i0 = true := by
                  have hcv := hoki
                  rw [hie] at hcv
                  simp only [Bool.not_false] at hcv
                  rw [← hcv, hsi]
                  rfl
                obtain ⟨hokb, _⟩ := label_statement_spec body (stack ++ [g]) g1
                cases hsb : label_statement (stack ++ [g]) g1 body with
                | error e =>
                    have h2 : stmtOk true body = false := by
                      have hcv := hokb
                      rw [hie] at hcv
                      simp only [Bool.not_false] at hcv
                      rw [← hcv, hsb]
                      rfl
                    simp [label_statement, Bind.bind, Except.bind, hsi, hsb, isOkE,
                      stmtOk, h1, h2, pure, Except.pure]
                | ok q =>
                    have h2 : stmtOk true body = true := by
                      have hcv := hokb
                      rw [hie] at hcv
                      simp only [Bool.not_false] at hcv
                      rw [← hcv, hsb]
                      rfl
                    simp [label_statement, Bind.bind, Except.bind, hsi, hsb, isOkE,
                      stmtOk, pure, Except.pure, h1, h2]
          · intro out g' h
            cases hsi : label_block_item (stack ++ [g]) (g + 1) i0 with
            | error e =>
                rw [label_statement] at h
                simp only [Bind.bind, Except.bind, hsi, pure, Except.pure] at h
                exact absurd h (by simp)
            | ok p =>
                obtain ⟨i', g1⟩ := p
                obtain ⟨hgi, hwli, hrangei, hndi⟩ := hsucci i' g1 hsi
                obtain ⟨_, hsuccb⟩ := label_statement_spec body (stack ++ [g]) g1
                cases hsb : label_statement (stack ++ [g]) g1 body with
                | error e =>
                    rw [label_statement] at h
                    simp only [Bind.bind, Except.bind, hsi, hsb, pure, Except.pure] at h
                    exact absurd h (by simp)
                | ok q =>
                    obtain ⟨b', g2⟩ := q
                    obtain ⟨hgb, hwlb, hrangeb, hndb⟩ := hsuccb b' g2 hsb
                    rw [label_statement] at h
                    simp only [Bind.bind, Except.bind, hsi, hsb, pure, Except.pure,
                      Except.ok.injEq, Prod.mk.injEq] at h
                    obtain ⟨rfl, rfl⟩ := h
                    refine ⟨by omega, ?_, ?_, ?_⟩
                    · simp only [wlStmt, Bool.and_eq_true]
                      exact ⟨hwli, hwlb⟩
                    · intro i hi
                      simp only [idsStmt, List.mem_cons, List.mem_append] at hi
                      rcases hi with rfl | hi | hi
                      · omega
                      · have := hrangei i hi
                        omega
                      · have := hrangeb i hi
                        omega
                    · simp only [idsStmt, List.nodup_cons, List.mem_append]
                      constructor
                      · intro hmem
                        rcases hmem with hmem | hmem
                        · have := hrangei g hmem
                          omega
                        · have := hrangeb g hmem
                          omega
                      · rw [List.nodup_append]
                        refine ⟨hndi, hndb, ?_⟩
                        intro a ha hb
                        have h1 := hrangei a ha
                        have h2 := hrangeb a hb
                        omega

theorem label_block_spec (b : U.Block) :
    ∀ (stack : List Nat) (g : Nat),
    isOkE (label_block stack g b) = blockOk (!stack.isEmpty) b ∧
    (∀ out g', label_block stack g b = Except.ok (out, g') →
      g ≤ g' ∧ wlBlock stack out = true ∧
      (∀ i ∈ idsBlock out, g ≤ i ∧ i < g') ∧ (idsBlock out).Nodup) := by
  intro stack g
  obtain ⟨items⟩ := b
  obtain ⟨hok, hsucc⟩ := label_items_spec items stack g
  constructor
  · cases hs : label_items stack g items with
    | error e => simp [label_block, Bind.bind, Except.bind, hs, isOkE, blockOk, ← hok, pure, Except.pure]
    | ok p =>
        simp [label_block, Bind.bind, Except.bind, hs, isOkE, blockOk, ← hok,
          pure, Except.pure]
  · intro out g' h
    cases hs : label_items stack g items with
    | error e =>
        rw [label_block] at h
        simp only [Bind.bind, Except.bind, hs] at h
        exact absurd h (by simp)
    | ok p =>
        obtain ⟨items', g1⟩ := p
        obtain ⟨hg, hwl, hrange, hnd⟩ := hsucc items' g1 hs
        rw [label_block] at h
        simp only [Bind.bind, Except.bind, hs, pure, Except.pure, Except.ok.injEq,
          Prod.mk.injEq] at h
        obtain ⟨rfl, rfl⟩ := h
        exact ⟨hg, hwl, hrange, hnd⟩

theorem label_items_spec (items : List U.BlockItem) :
    ∀ (stack : List Nat) (g : Nat),
    isOkE (label_items stack g items) = itemsOk (!stack.isEmpty) items ∧
    (∀ out g', label_items stack g items = Except.ok (out, g') →
      g ≤ g' ∧ wlItems stack out = true ∧
      (∀ i ∈ idsItems out, g ≤ i ∧ i < g') ∧ (idsItems out).Nodup) := by
  intro stack g
  cases items with
  | nil =>
      refine ⟨rfl, ?_⟩
      intro out g' h
      simp only [label_items, pure, Except.pure, Except.ok.injEq, Prod.mk.injEq] at h
      obtain ⟨rfl, rfl⟩ := h
      exact ⟨le_refl g, rfl, by simp [idsItems], by simp [idsItems]⟩
  | cons i0 t =>
      obtain ⟨hoki, hsucci⟩ := label_block_item_spec i0 stack g
      constructor
      · cases hsi : label_block_item stack g i0 with
        | error e =>
            have h1 : itemOk (!stack.isEmpty) i0 = false := by
              rw [← hoki, hsi]
              rfl
            simp [label_items, Bind.bind, Except.bind, hsi, isOkE, itemsOk, h1, pure, Except.pure]
        | ok p =>
            obtain ⟨i', g1⟩ := p
            have h1 : itemOk (!stack.isEmpty) i0 = true := by
              rw [← hoki, hsi]
              rfl
            obtain ⟨hokt, _⟩ := label_items_spec t stack g1
            cases hst : label_items stack g1 t with
            | error e =>
                have h2 : itemsOk (!stack.isEmpty) t = false := by
                  rw [← hokt, hst]
                  rfl
                simp [label_items, Bind.bind, Except.bind, hsi, hst, isOkE, itemsOk,
                  h1, h2, pure, Except.pure]
            | ok q =>
                have h2 : itemsOk (!stack.isEmpty) t = true := by
                  rw [← hokt, hst]
                  rfl
                simp [label_items, Bind.bind, Except.bind, hsi, hst, isOkE, itemsOk,
                  pure, Except.pure, h1, h2]
      · intro out g' h
        cases hsi : label_block_item stack g i0 with
        | error e =>
            rw [label_items] at h
            simp only [Bind.bind, Except.bind, hsi] at h
            exact absurd h (by simp)
        | ok p =>
            obtain ⟨i', g1⟩ := p
            obtain ⟨hgi, hwli, hrangei, hndi⟩ := hsucci i' g1 hsi
            obtain ⟨_, hsucct⟩ := label_items_spec t stack g1
            cases hst : label_items stack g1 t with
            | error e =>
                rw [label_items] at h
                simp only [Bind.bind, Except.bind, hsi, hst] at h
                exact absurd h (by simp)
            | ok q =>
                obtain ⟨t', g2⟩ := q
                obtain ⟨hgt, hwlt, hranget, hndt⟩ := hsucct t' g2 hst
                rw [label_items] at h
                simp only [Bind.bind, Except.bind, hsi, hst, pure, Except.pure,
                  Except.ok.injEq, Prod.mk.injEq] at h
                obtain ⟨rfl, rfl⟩ := h
                refine ⟨by omega, ?_, ?_, ?_⟩
                · simp only [wlItems, Bool.and_eq_true]
                  exact ⟨hwli, hwlt⟩
                · intro i hi
                  simp only [idsItems, List.mem_append] at hi
                  rcases hi with hi | hi
                  · have := hrangei i hi
                    omega
                  · have := hranget i hi
                    omega
                · simp only [idsItems]
                  rw [List.nodup_append]
                  refine ⟨hndi, hndt, ?_⟩
                  intro a ha hb
                  have h1 := hrangei a ha
                  have h2 := hranget a hb
                  omega

theorem label_block_item_spec (item : U.BlockItem) :
    ∀ (stack : List Nat) (g : Nat),
    isOkE (label_block_item stack g item) = itemOk (!stack.isEmpty) item ∧
    (∀ out g', label_block_item stack g item = Except.ok (out, g') →
      g ≤ g' ∧ wlItem stack out = true ∧
      (∀ i ∈ idsItem out, g ≤ i ∧ i < g') ∧ (idsItem out).Nodup) := by
  intro stack g
  cases item with
  | S s =>
      obtain ⟨hok, hsucc⟩ := label_statement_spec s stack g
      constructor
      · cases hs : label_statement stack g s with
        | error e => simp [label_block_item, Bind.bind, Except.bind, hs, isOkE,
            itemOk, ← hok, pure, Except.pure]
        | ok p =>
            simp [label_block_item, Bind.bind, Except.bind, hs, isOkE, itemOk, ← hok,
              pure, Except.pure]
      · intro out g' h
        cases hs : label_statement stack g s with
        | error e =>
            rw [label_block_item] at h
            simp only [Bind.bind, Except.bind, hs] at h
            exact absurd h (by simp)
        | ok p =>
            obtain ⟨s', g1⟩ := p
            obtain ⟨hg, hwl, hrange, hnd⟩ := hsucc s' g1 hs
            rw [label_block_item] at h
            simp only [Bind.bind, Except.bind, hs, pure, Except.pure, Except.ok.injEq,
              Prod.mk.injEq] at h
            obtain ⟨rfl, rfl⟩ := h
            exact ⟨hg, hwl, hrange, hnd⟩
  | D d =>
      obtain ⟨hok, hsucc⟩ := label_declaration_spec d stack g
      constructor
      · cases hs : label_declaration stack g d with
        | error e => simp [label_block_item, Bind.bind, Except.bind, hs, isOkE,
            itemOk, ← hok, pure, Except.pure]
        | ok p =>
            simp [label_block_item, Bind.bind, Except.bind, hs, isOkE, itemOk, ← hok,
              pure, Except.pure]
      · intro out g' h
        cases hs : label_declaration stack g d with
        | error e =>
            rw [label_block_item] at h
            simp only [Bind.bind, Except.bind, hs] at h
            exact absurd h (by simp)
        | ok p =>
            obtain ⟨d', g1⟩ := p
            obtain ⟨hg, hwl, hrange, hnd⟩ := hsucc d' g1 hs
            rw [label_block_item] at h
            simp only [Bind.bind, Except.bind, hs, pure, Except.pure, Except.ok.injEq,
              Prod.mk.injEq] at h
            obtain ⟨rfl, rfl⟩ := h
            exact ⟨hg, hwl, hrange, hnd⟩

theorem label_declaration_spec (d : U.Declaration) :
    ∀ (stack : List Nat) (g : Nat),
    isOkE (label_declaration stack g d) = declOk (!stack.isEmpty) d ∧
    (∀ out g', label_declaration stack g d = Except.ok (out, g') →
      g ≤ g' ∧ wlDecl stack out = true ∧
      (∀ i ∈ idsDecl out, g ≤ i ∧ i < g') ∧ (idsDecl out).Nodup) := by
  intro stack g
  cases d with
  | varDecl name init =>
      refine ⟨rfl, ?_⟩
      intro out g' h
      simp only [label_declaration, pure, Except.pure, Except.ok.injEq,
        Prod.mk.injEq] at h
      obtain ⟨rfl, rfl⟩ := h
      exact ⟨le_refl g, rfl, by simp [idsDecl], by simp [idsDecl]⟩
  | function name params body =>
      cases body with
      | none =>
          refine ⟨rfl, ?_⟩
          intro out g' h
          simp only [label_declaration, pure, Except.pure, Except.ok.injEq,
            Prod.mk.injEq] at h
          obtain ⟨rfl, rfl⟩ := h
          exact ⟨le_refl g, rfl, by simp [idsDecl], by simp [idsDecl]⟩
      | some b =>
          obtain ⟨hok, hsucc⟩ := label_block_spec b stack g
          constructor
          · cases hs : label_block stack g b with
            | error e => simp [label_declaration, Bind.bind, Except.bind, hs, isOkE,
                declOk, ← hok, pure, Except.pure]
            | ok p =>
                simp [label_declaration, Bind.bind, Except.bind, hs, isOkE, declOk,
                  ← hok, pure, Except.pure]
          · intro out g' h
            cases hs : label_block stack g b with
            | error e =>
                rw [label_declaration] at h
                simp only [Bind.bind, Except.bind, hs] at h
                exact absurd h (by simp)
            | ok p =>
                obtain ⟨b', g1⟩ := p
                obtain ⟨hg, hwl, hrange, hnd⟩ := hsucc b' g1 hs
                rw [label_declaration] at h
                simp only [Bind.bind, Except.bind, hs, pure, Except.pure,
                  Except.ok.injEq, Prod.mk.injEq] at h
                obtain ⟨rfl, rfl⟩ := h
                exact ⟨hg, hwl, hrange, hnd⟩

end

end LL

namespace LL

theorem label_decls_spec (ds : List U.Declaration) :
    ∀ (stack : List Nat) (g : Nat),
    isOkE (label_decls stack g ds) = declsOk (!stack.isEmpty) ds ∧
    (∀ out g', label_decls stack g ds = Except.ok (out, g') →
      g ≤ g' ∧ wlDecls stack out = true ∧
      (∀ i ∈ idsDecls out, g ≤ i ∧ i < g') ∧ (idsDecls out).Nodup) := by
  induction ds with
  | nil =>
      intro stack g
      refine ⟨rfl, ?_⟩
      intro out g' h
      simp only [label_decls, pure, Except.pure, Except.ok.injEq, Prod.mk.injEq] at h
      obtain ⟨rfl, rfl⟩ := h
      exact ⟨le_refl g, rfl, by simp [idsDecls], by simp [idsDecls]⟩
  | cons d0 t ih =>
      intro stack g
      obtain ⟨hoki, hsucci⟩ := label_declaration_spec d0 stack g
      constructor
      · cases hsi : label_declaration stack g d0 with
        | error e =>
            have h1 : declOk (!stack.isEmpty) d0 = false := by
              rw [← hoki, hsi]
              rfl
            simp [label_decls, Bind.bind, Except.bind, hsi, isOkE, declsOk, h1]
        | ok p =>
            obtain ⟨d', g1⟩ := p
            have h1 : declOk (!stack.isEmpty) d0 = true := by
              rw [← hoki, hsi]
              rfl
            obtain ⟨hokt, _⟩ := ih stack g1
            cases hst : label_decls stack g1 t with
            | error e =>
                have h2 : declsOk (!stack.isEmpty) t = false := by
                  rw [← hokt, hst]
                  rfl
                simp [label_decls, Bind.bind, Except.bind, hsi, hst, isOkE, declsOk,
                  h1, h2]
            | ok q =>
                have h2 : declsOk (!stack.isEmpty) t = true := by
                  rw [← hokt, hst]
                  rfl
                simp [label_decls, Bind.bind, Except.bind, hsi, hst, isOkE, declsOk,
                  pure, Except.pure, h1, h2]
      · intro out g' h
        cases hsi : label_declaration stack g d0 with
        | error e =>
            rw [label_decls] at h
            simp only [Bind.bind, Except.bind, hsi] at h
            exact absurd h (by simp)
        | ok p =>
            obtain ⟨d', g1⟩ := p
            obtain ⟨hgi, hwli, hrangei, hndi⟩ := hsucci d' g1 hsi
            obtain ⟨_, hsucct⟩ := ih stack g1
            cases hst : label_decls stack g1 t with
            | error e =>
                rw [label_decls] at h
                simp only [Bind.bind, Except.bind, hsi, hst] at h
                exact absurd h (by simp)
            | ok q =>
                obtain ⟨t', g2⟩ := q
                obtain ⟨hgt, hwlt, hranget, hndt⟩ := hsucct t' g2 hst
                rw [label_decls] at h
                simp only [Bind.bind, Except.bind, hsi, hst, pure, Except.pure,
                  Except.ok.injEq, Prod.mk.injEq] at h
                obtain ⟨rfl, rfl⟩ := h
                refine ⟨by omega, ?_, ?_, ?_⟩
                · simp only [wlDecls, Bool.and_eq_true]
                  exact ⟨hwli, hwlt⟩
                · intro i hi
                  simp only [idsDecls, List.mem_append] at hi
                  rcases hi with hi | hi
                  · have := hrangei i hi
                    omega
                  · have := hranget i hi
                    omega
                · simp only [idsDecls]
                  rw [List.nodup_append]
                  refine ⟨hndi, hndt, ?_⟩
                  intro a ha hb
                  have h1 := hrangei a ha
                  have h2 := hranget a hb
                  omega

/-- C4: the loop labeler fails exactly when some break or continue occurs
with an empty stack of open loop ids (its sole failure); on success every
break and continue in the output carries the id of its innermost enclosing
loop (the top of the stack at that point), and the loop ids minted from
the shared generator are pairwise distinct across the whole program. -/
theorem loop_labeler_correct (prog : U.Program) (g : Nat) :
    isOkE (label_program prog g) = progOk prog ∧
    (∀ out g', label_program prog g = Except.ok (out, g') →
      wlProg out = true ∧ (idsProg out).Nodup) := by
  obtain ⟨hok, hsucc⟩ := label_decls_spec prog.declarations [] g
  simp only [List.isEmpty_nil, Bool.not_true] at hok
  constructor
  · cases hs : label_decls [] g prog.declarations with
    | error e => simp [label_program, Bind.bind, Except.bind, hs, isOkE, progOk, ← hok]
    | ok p =>
        simp [label_program, Bind.bind, Except.bind, hs, isOkE, progOk, ← hok,
          pure, Except.pure]
  · intro out g' h
    cases hs : label_decls [] g prog.declarations with
    | error e =>
        rw [label_program] at h
        simp only [Bind.bind, Except.bind, hs] at h
        exact absurd h (by simp)
    | ok p =>
        obtain ⟨ds', g1⟩ := p
        obtain ⟨_, hwl, _, hnd⟩ := hsucc ds' g1 hs
        rw [label_program] at h
        simp only [Bind.bind, Except.bind, hs, pure, Except.pure, Except.ok.injEq,
          Prod.mk.injEq] at h
        obtain ⟨rfl, rfl⟩ := h
        exact ⟨hwl, hnd⟩

/-- The source's own nested-loop test program:
`while (1) { for (;;) { if (1) continue; break; } break; } return 0;`. -/
def c4Prog : U.Program :=
  ⟨[U.Declaration.function ("main") ([]) (some (U.Block.mk [
    U.BlockItem.S (U.Statement.whileStmt (U.Expression.constant 1)
      (U.Statement.compound (U.Block.mk [
        U.BlockItem.S (U.Statement.forStmt none none none
          (U.Statement.compound (U.Block.mk [
            U.BlockItem.S (U.Statement.ifStmt (U.Expression.constant 1)
              U.Statement.continueStmt none),
            U.BlockItem.S U.Statement.breakStmt]))),
        U.BlockItem.S U.Statement.breakStmt]))),
    U.BlockItem.S (U.Statement.ret (U.Expression.constant 0))]))]⟩

/-- Its labeling: outer `while` id 0, inner `for` id 1, `continue` and the
inner `break` target 1, the outer `break` targets 0. -/
def c4Expected : Ck.Program :=
  ⟨[Ck.Declaration.function ("main") ([]) (some (Ck.Block.mk [
    Ck.BlockItem.S (Ck.Statement.whileStmt (U.Expression.constant 1)
      (Ck.Statement.compound (Ck.Block.mk [
        Ck.BlockItem.S (Ck.Statement.forStmt none none none
          (Ck.Statement.compound (Ck.Block.mk [
            Ck.BlockItem.S (Ck.Statement.ifStmt (U.Expression.constant 1)
              (Ck.Statement.continueStmt 1) none),
            Ck.BlockItem.S (Ck.Statement.breakStmt 1)])) 1),
        Ck.BlockItem.S (Ck.Statement.breakStmt 0)])) 0),
    Ck.BlockItem.S (Ck.Statement.ret (U.Expression.constant 0))]))]⟩

/-- Witness for C4 on the source's nested-loop test program. -/
theorem loop_labeler_correct_witness :
    label_program c4Prog 0 = Except.ok (c4Expected, 2) ∧
    wlProg c4Expected = true ∧ (idsProg c4Expected).Nodup :=
  ⟨rfl, (loop_labeler_correct c4Prog 0).2 c4Expected 2 rfl⟩

end LL

namespace TG

/-- The labels `make_label_with_prefix` builds as
`format!("_{prefix}_{counter}")` for the six expression-lowering prefixes.
The string format is injective across these prefixes and counters (no
prefix is another followed by an underscore and digits), so the embedding
represents a label by its prefix constructor and counter. -/
inductive Lbl where
  | andFalse (n : Nat)
  | andEnd (n : Nat)
  | orTrue (n : Nat)
  | orEnd (n : Nat)
  | condElse (n : Nat)
  | condEnd (n : Nat)
deriving DecidableEq, Repr

/-- The counter a label was minted with. -/
def ctrOf : Lbl → Nat
  | Lbl.andFalse n => n
  | Lbl.andEnd n => n
  | Lbl.orTrue n => n
  | Lbl.orEnd n => n
  | Lbl.condElse n => n
  | Lbl.condEnd n => n

/-- `src/ir/tacky.rs` `UnaryOperator`. -/
inductive TUnop where
  | complement | negate | lnot
deriving DecidableEq, Repr

/-- `src/ir/tacky.rs` `BinaryOperator` (no And/Or — those are lowered to
jumps). -/
inductive TBinop where
  | add | subtract | multiply | divide | remainder
  | equal | notEqual | lessThan | lessOrEqual | greaterThan | greaterEqual
deriving DecidableEq, Repr

/-- `src/ir/tacky.rs` `Instruction`, restricted to what the expression
lowering of `src/backend/tacky_gen.rs` emits, with structured labels. -/
inductive TInstr where
  | ret (v : Tacky.Val)
  | unaryI (op : TUnop) (src dst : Tacky.Val)
  | binaryI (op : TBinop) (src1 src2 dst : Tacky.Val)
  | copy (src dst : Tacky.Val)
  | jump (target : Lbl)
  | jumpIfZero (condition : Tacky.Val) (target : Lbl)
  | jumpIfNotZero (condition : Tacky.Val) (target : Lbl)
  | labelI (name : Lbl)
deriving DecidableEq, Repr

/-- The expression language of the `checked` AST consumed by
`generate_tacky_for_expression` (`src/backend/tacky_gen.rs`):
`Var | Assign | Constant | Unary | Binary | Conditional`. -/
inductive Expr where
  | constant (i : Int)
  | var (name : String)
  | unary (operator : U.UnaryOperator) (expression : Expr)
  | binary (operator : U.BinaryOperator) (left right : Expr)
  | assign (left right : Expr)
  | conditional (condition left right : Expr)
deriving DecidableEq, Repr

/-- Generator state: the shared `UniqueIdGenerator` (temporaries) and the
generator's own `label_counter`. -/
structure GenState where
  idGen : Nat
  labelCtr : Nat
deriving DecidableEq, Repr

/-- `make_temporary`: `"tmp.{id}"` from the shared counter. -/
def make_temporary (st : GenState) : String × GenState :=
  ("tmp." ++ toString st.idGen, ⟨st.idGen + 1, st.labelCtr⟩)

/-- `convert_unop`. -/
def convert_unop : U.UnaryOperator → TUnop
  | U.UnaryOperator.negate => TUnop.negate
  | U.UnaryOperator.complement => TUnop.complement
  | U.UnaryOperator.lnot => TUnop.lnot

/-- `convert_binaryop`: the non-short-circuit operators; `And`/`Or` must
be handled separately and error here. -/
def convert_binaryop : U.BinaryOperator → Except String TBinop
  | U.BinaryOperator.add => pure TBinop.add
  | U.BinaryOperator.subtract => pure TBinop.subtract
  | U.BinaryOperator.multiply => pure TBinop.multiply
  | U.BinaryOperator.divide => pure TBinop.divide
  | U.BinaryOperator.remainder => pure TBinop.remainder
  | U.BinaryOperator.equal => pure TBinop.equal
  | U.BinaryOperator.notEqual => pure TBinop.notEqual
  | U.BinaryOperator.lessThan => pure TBinop.lessThan
  | U.BinaryOperator.lessOrEqual => pure TBinop.lessOrEqual
  | U.BinaryOperator.greaterThan => pure TBinop.greaterThan
  | U.BinaryOperator.greaterOrEqual => pure TBinop.greaterEqual
  | U.BinaryOperator.andOp =>
      Except.error ("Logical AND/OR should be handled separately and not converted directly.")
  | U.BinaryOperator.orOp =>
      Except.error ("Logical AND/OR should be handled separately and not converted directly.")

/-- `src/backend/tacky_gen.rs` `generate_tacky_for_expression` (lines
93–308; the `&&` case is lines 146–190): returns the expression's value,
the emitted instructions in order, and the updated counters. -/
def genExpr : Expr → GenState → Except String (Tacky.Val × List TInstr × GenState)
  | Expr.var name, st => pure (Tacky.Val.var name, [], st)
  | Expr.assign left right, st => do
      let (rhs_val, is1, st1) ← genExpr right st
      match left with
      | Expr.var var_name =>
          pure (rhs_val, is1 ++ [TInstr.copy rhs_val (Tacky.Val.var var_name)], st1)
      | _ => Except.error ("Invalid left-hand side in assignment.")
  | Expr.constant i, st => pure (Tacky.Val.constant i, [], st)
  | Expr.unary operator expression, st => do
      let (src, is1, st1) ← genExpr expression st
      let (dst_name, st2) := make_temporary st1
      let dst := Tacky.Val.var dst_name
      pure (dst, is1 ++ [TInstr.unaryI (convert_unop operator) src dst], st2)
  | Expr.binary U.BinaryOperator.andOp left right, st => do
      let (result_var_name, st1) := make_temporary st
      let result_var := Tacky.Val.var result_var_name
      let false_label := Lbl.andFalse st1.labelCtr
      let st2 : GenState := ⟨st1.idGen, st1.labelCtr + 1⟩
      let end_label := Lbl.andEnd st2.labelCtr
      let st3 : GenState := ⟨st2.idGen, st2.labelCtr + 1⟩
      let (v1, is1, st4) ← genExpr left st3
      let (v2, is2, st5) ← genExpr right st4
      pure (result_var,
        is1 ++ [TInstr.jumpIfZero v1 false_label] ++ is2 ++
        [TInstr.jumpIfZero v2 false_label,
         TInstr.copy (Tacky.Val.constant 1) result_var,
         TInstr.jump end_label,
         TInstr.labelI false_label,
         TInstr.copy (Tacky.Val.constant 0) result_var,
         TInstr.labelI end_label], st5)
  | Expr.binary U.BinaryOperator.orOp left right, st => do
      let (result_var_name, st1) := make_temporary st
      let result_var := Tacky.Val.var result_var_name
      let true_label := Lbl.orTrue st1.labelCtr
      let st2 : GenState := ⟨st1.idGen, st1.labelCtr + 1⟩
      let end_label := Lbl.orEnd st2.labelCtr
      let st3 : GenState := ⟨st2.idGen, st2.labelCtr + 1⟩
      let (v1, is1, st4) ← genExpr left st3
      let (v2, is2, st5) ← genExpr right st4
      pure (result_var,
        is1 ++ [TInstr.jumpIfNotZero v1 true_label] ++ is2 ++
        [TInstr.jumpIfNotZero v2 true_label,
         TInstr.copy (Tacky.Val.constant 0) result_var,
         TInstr.jump end_label,
         TInstr.labelI true_label,
         TInstr.copy (Tacky.Val.constant 1) result_var,
         TInstr.labelI end_label], st5)
  | Expr.binary operator left right, st => do
      let (src1, is1, st1) ← genExpr left st
      let (src2, is2, st2) ← genExpr right st1
      let (dst_name, st3) := make_temporary st2
      let dst := Tacky.Val.var dst_name
      let tacky_op ← convert_binaryop operator
      pure (dst, is1 ++ is2 ++ [TInstr.binaryI tacky_op src1 src2 dst], st3)
  | Expr.conditional condition left right, st => do
      let (result_name, st1) := make_temporary st
      let result_var := Tacky.Val.var result_name
      let else_label := Lbl.condElse st1.labelCtr
      let st2 : GenState := ⟨st1.idGen, st1.labelCtr + 1⟩
      let end_label := Lbl.condEnd st2.labelCtr
      let st3 : GenState := ⟨st2.idGen, st2.labelCtr + 1⟩
      let (cond_val, is0, st4) ← genExpr condition st3
      let (then_val, is1, st5) ← genExpr left st4
      let (else_val, is2, st6) ← genExpr right st5
      pure (result_var,
        is0 ++ [TInstr.jumpIfZero cond_val else_label] ++
        is1 ++ [TInstr.copy then_val result_var, TInstr.jump end_label,
          TInstr.labelI else_label] ++
        is2 ++ [TInstr.copy else_val result_var, TInstr.labelI end_label], st6)

end TG

namespace TG

/-- Machine environments for the three-address IR. -/
abbrev Env := String → Int

def evalVal (env : Env) : Tacky.Val → Int
  | Tacky.Val.constant i => i
  | Tacky.Val.var n => env n

def updateEnv (env : Env) (n : String) (v : Int) : Env :=
  fun m => if m = n then v else env m

def evalUnop : TUnop → Int → Int
  | TUnop.negate, x => -x
  | TUnop.complement, x => -x - 1
  | TUnop.lnot, x => if x = 0 then 1 else 0

def evalBinop : TBinop → Int → Int → Int
  | TBinop.add, x, y => x + y
  | TBinop.subtract, x, y => x - y
  | TBinop.multiply, x, y => x * y
  | TBinop.divide, x, y => Int.tdiv x y
  | TBinop.remainder, x, y => Int.tmod x y
  | TBinop.equal, x, y => if x = y then 1 else 0
  | TBinop.notEqual, x, y => if x = y then 0 else 1
  | TBinop.lessThan, x, y => if x < y then 1 else 0
  | TBinop.lessOrEqual, x, y => if x ≤ y then 1 else 0
  | TBinop.greaterThan, x, y => if y < x then 1 else 0
  | TBinop.greaterEqual, x, y => if y ≤ x then 1 else 0

/-- Index of the first occurrence of a label in an instruction list. -/
def findLabel : List TInstr → Lbl → Option Nat
  | [], _ => none
  | i :: t, l =>
      if i = TInstr.labelI l then some 0
      else (findLabel t l).map (fun j => j + 1)

/-- One deterministic step of the three-address program: `none` is a halt
(`Return`) or a stuck state. Jumps transfer control to the first
occurrence of their target label. -/
def step (code : List TInstr) (s : Nat × Env) : Option (Nat × Env) :=
  match code[s.1]? with
  | none => none
  | some inst =>
      match inst with
      | TInstr.ret _ => none
      | TInstr.labelI _ => some (s.1 + 1, s.2)
      | TInstr.copy src dst =>
          match dst with
          | Tacky.Val.var n => some (s.1 + 1, updateEnv s.2 n (evalVal s.2 src))
          | _ => none
      | TInstr.unaryI op src dst =>
          match dst with
          | Tacky.Val.var n =>
              some (s.1 + 1, updateEnv s.2 n (evalUnop op (evalVal s.2 src)))
          | _ => none
      | TInstr.binaryI op a b dst =>
          match dst with
          | Tacky.Val.var n =>
              some (s.1 + 1, updateEnv s.2 n
                (evalBinop op (evalVal s.2 a) (evalVal s.2 b)))
          | _ => none
      | TInstr.jump l => (findLabel code l).map (fun j => (j, s.2))
      | TInstr.jumpIfZero v l =>
          if evalVal s.2 v = 0 then (findLabel code l).map (fun j => (j, s.2))
          else some (s.1 + 1, s.2)
      | TInstr.jumpIfNotZero v l =>
          if evalVal s.2 v ≠ 0 then (findLabel code l).map (fun j => (j, s.2))
          else some (s.1 + 1, s.2)

theorem findLabel_append_of_notin (pre rest : List TInstr) (l : Lbl)
    (h : TInstr.labelI l ∉ pre) :
    findLabel (pre ++ rest) l =
      match findLabel rest l with
      | some j => some (pre.length + j)
      | none => none := by
  induction pre with
  | nil =>
      cases hf : findLabel rest l <;> simp [hf]
  | cons i t ih =>
      have hne : i ≠ TInstr.labelI l := fun he => h (by simp [he])
      have hnt : TInstr.labelI l ∉ t := fun ht => h (by simp [ht])
      rw [List.cons_append]
      show (if i = TInstr.labelI l then some 0
        else (findLabel (t ++ rest) l).map (fun j => j + 1)) = _
      rw [if_neg hne, ih hnt]
      cases hf : findLabel rest l with
      | none => rfl
      | some j =>
          simp only [Option.map_some]
          simp [List.length_cons]
          omega

end TG


namespace TG

/-- Label freshness: every label the generator emits carries a counter at
or above the incoming label counter and below the final one; the counter
is monotone. -/
theorem genExpr_fresh (e : Expr) :
    ∀ (st : GenState) (v : Tacky.Val) (is : List TInstr) (st' : GenState),
    genExpr e st = Except.ok (v, is, st') →
    st.labelCtr ≤ st'.labelCtr ∧
    (∀ lb, TInstr.labelI lb ∈ is → st.labelCtr ≤ ctrOf lb ∧ ctrOf lb < st'.labelCtr) := by
  induction e with
  | constant i =>
      intro st v is st' h
      simp only [genExpr, pure, Except.pure, Except.ok.injEq, Prod.mk.injEq] at h
      obtain ⟨h1, h2, h3⟩ := h
      subst h2
      subst h3
      exact ⟨le_refl _, by simp⟩
  | var n =>
      intro st v is st' h
      simp only [genExpr, pure, Except.pure, Except.ok.injEq, Prod.mk.injEq] at h
      obtain ⟨h1, h2, h3⟩ := h
      subst h2
      subst h3
      exact ⟨le_refl _, by simp⟩
  | unary op e ih =>
      intro st v is st' h
      cases hs : genExpr e st with
      | error err =>
          rw [genExpr] at h
          simp [Bind.bind, Except.bind, hs] at h
      | ok p =>
          obtain ⟨src, is1, st1⟩ := p
          rw [genExpr] at h
          simp only [Bind.bind, Except.bind, hs, make_temporary, pure, Except.pure,
            Except.ok.injEq, Prod.mk.injEq] at h
          obtain ⟨h1, h2, h3⟩ := h
          subst h2
          subst h3
          obtain ⟨hm, hlb⟩ := ih st src is1 st1 hs
          refine ⟨by simpa using hm, ?_⟩
          intro lb hmem
          rcases List.mem_append.mp hmem with hm1 | hm1
          · have := hlb lb hm1
            simp only []
            omega
          · exact absurd (List.mem_singleton.mp hm1) (by simp)
  | assign l r ihl ihr =>
      intro st v is st' h
      cases hs : genExpr r st with
      | error err =>
          rw [genExpr] at h
          simp [Bind.bind, Except.bind, hs] at h
      | ok p =>
          obtain ⟨rhs, is1, st1⟩ := p
          cases l with
          | var vn =>
              rw [genExpr] at h
              simp only [Bind.bind, Except.bind, hs, pure, Except.pure,
                Except.ok.injEq, Prod.mk.injEq] at h
              obtain ⟨h1, h2, h3⟩ := h
              subst h2
              subst h3
              obtain ⟨hm, hlb⟩ := ihr st rhs is1 st1 hs
              refine ⟨hm, ?_⟩
              intro lb hmem
              rcases List.mem_append.mp hmem with hm1 | hm1
              · exact hlb lb hm1
              · exact absurd (List.mem_singleton.mp hm1) (by simp)
          | constant c =>
              rw [genExpr] at h
              simp [Bind.bind, Except.bind, hs] at h
          | unary op2 e2 =>
              rw [genExpr] at h
              simp [Bind.bind, Except.bind, hs] at h
          | binary op2 l2 r2 =>
              rw [genExpr] at h
              simp [Bind.bind, Except.bind, hs] at h
          | assign l2 r2 =>
              rw [genExpr] at h
              simp [Bind.bind, Except.bind, hs] at h
          | conditional c2 l2 r2 =>
              rw [genExpr] at h
              simp [Bind.bind, Except.bind, hs] at h
  | binary op l r ihl ihr =>
      intro st v is st' h
      cases op with
      | andOp =>
          cases hs1 : genExpr l ⟨st.idGen + 1, st.labelCtr + 1 + 1⟩ with
          | error err =>
              rw [genExpr] at h
              simp [Bind.bind, Except.bind, make_temporary, hs1] at h
          | ok p =>
              obtain ⟨v1, is1, st4⟩ := p
              cases hs2 : genExpr r st4 with
              | error err =>
                  rw [genExpr] at h
                  simp [Bind.bind, Except.bind, make_temporary, hs1, hs2] at h
              | ok q =>
                  obtain ⟨v2, is2, st5⟩ := q
                  rw [genExpr] at h
                  simp only [Bind.bind, Except.bind, make_temporary, hs1, hs2, pure,
                    Except.pure, Except.ok.injEq, Prod.mk.injEq] at h
                  obtain ⟨h1, h2, h3⟩ := h
                  subst h2
                  subst h3
                  obtain ⟨hm1, hlb1⟩ := ihl ⟨st.idGen + 1, st.labelCtr + 1 + 1⟩ v1 is1 st4 hs1
                  obtain ⟨hm2, hlb2⟩ := ihr st4 v2 is2 st5 hs2
                  simp only [] at hm1
                  refine ⟨by omega, ?_⟩
                  intro lb hmem
                  have hcase : TInstr.labelI lb ∈ is1 ∨ TInstr.labelI lb ∈ is2 ∨
                      lb = Lbl.andFalse st.labelCtr ∨ lb = Lbl.andEnd (st.labelCtr + 1) := by
                    simp at hmem
                    tauto
                  rcases hcase with hm | hm | rfl | rfl
                  · have := hlb1 lb hm
                    simp only [] at this
                    omega
                  · have := hlb2 lb hm
                    omega
                  · simp only [ctrOf]
                    omega
                  · simp only [ctrOf]
                    omega
      | orOp =>
          cases hs1 : genExpr l ⟨st.idGen + 1, st.labelCtr + 1 + 1⟩ with
          | error err =>
              rw [genExpr] at h
              simp [Bind.bind, Except.bind, make_temporary, hs1] at h
          | ok p =>
              obtain ⟨v1, is1, st4⟩ := p
              cases hs2 : genExpr r st4 with
              | error err =>
                  rw [genExpr] at h
                  simp [Bind.bind, Except.bind, make_temporary, hs1, hs2] at h
              | ok q =>
                  obtain ⟨v2, is2, st5⟩ := q
                  rw [genExpr] at h
                  simp only [Bind.bind, Except.bind, make_temporary, hs1, hs2, pure,
                    Except.pure, Except.ok.injEq, Prod.mk.injEq] at h
                  obtain ⟨h1, h2, h3⟩ := h
                  subst h2
                  subst h3
                  obtain ⟨hm1, hlb1⟩ := ihl ⟨st.idGen + 1, st.labelCtr + 1 + 1⟩ v1 is1 st4 hs1
                  obtain ⟨hm2, hlb2⟩ := ihr st4 v2 is2 st5 hs2
                  simp only [] at hm1
                  refine ⟨by omega, ?_⟩
                  intro lb hmem
                  have hcase : TInstr.labelI lb ∈ is1 ∨ TInstr.labelI lb ∈ is2 ∨
                      lb = Lbl.orTrue st.labelCtr ∨ lb = Lbl.orEnd (st.labelCtr + 1) := by
                    simp at hmem
                    tauto
                  rcases hcase with hm | hm | rfl | rfl
                  · have := hlb1 lb hm
                    simp only [] at this
                    omega
                  · have := hlb2 lb hm
                    omega
                  · simp only [ctrOf]
                    omega
                  · simp only [ctrOf]
                    omega
      | add =>
          cases hs1 : genExpr l st with
          | error err =>
              rw [genExpr] at h
              all_goals try (intro hfalse; exact absurd hfalse (by simp))
              simp [Bind.bind, Except.bind, hs1] at h
          | ok p =>
              obtain ⟨s1, is1, st1⟩ := p
              cases hs2 : genExpr r st1 with
              | error err =>
                  rw [genExpr] at h
                  all_goals try (intro hfalse; exact absurd hfalse (by simp))
                  simp [Bind.bind, Except.bind, hs1, hs2] at h
              | ok q =>
                  obtain ⟨s2, is2, st2⟩ := q
                  rw [genExpr] at h
                  all_goals try (intro hfalse; exact absurd hfalse (by simp))
                  simp only [Bind.bind, Except.bind, hs1, hs2, make_temporary,
                    convert_binaryop, pure, Except.pure, Except.ok.injEq,
                    Prod.mk.injEq] at h
                  obtain ⟨h1, h2, h3⟩ := h
                  subst h2
                  subst h3
                  obtain ⟨hm1, hlb1⟩ := ihl st s1 is1 st1 hs1
                  obtain ⟨hm2, hlb2⟩ := ihr st1 s2 is2 st2 hs2
                  refine ⟨by simp only []; omega, ?_⟩
                  intro lb hmem
                  simp only [List.append_assoc, List.mem_append, List.mem_singleton] at hmem
                  rcases hmem with hm | hm | hm
                  · have := hlb1 lb hm
                    simp only []
                    omega
                  · have := hlb2 lb hm
                    simp only []
                    omega
                  · exact absurd hm (by simp)
      | subtract =>
          cases hs1 : genExpr l st with
          | error err =>
              rw [genExpr] at h
              all_goals try (intro hfalse; exact absurd hfalse (by simp))
              simp [Bind.bind, Except.bind, hs1] at h
          | ok p =>
              obtain ⟨s1, is1, st1⟩ := p
              cases hs2 : genExpr r st1 with
              | error err =>
                  rw [genExpr] at h
                  all_goals try (intro hfalse; exact absurd hfalse (by simp))
                  simp [Bind.bind, Except.bind, hs1, hs2] at h
              | ok q =>
                  obtain ⟨s2, is2, st2⟩ := q
                  rw [genExpr] at h
                  all_goals try (intro hfalse; exact absurd hfalse (by simp))
                  simp only [Bind.bind, Except.bind, hs1, hs2, make_temporary,
                    convert_binaryop, pure, Except.pure, Except.ok.injEq,
                    Prod.mk.injEq] at h
                  obtain ⟨h1, h2, h3⟩ := h
                  subst h2
                  subst h3
                  obtain ⟨hm1, hlb1⟩ := ihl st s1 is1 st1 hs1
                  obtain ⟨hm2, hlb2⟩ := ihr st1 s2 is2 st2 hs2
                  refine ⟨by simp only []; omega, ?_⟩
                  intro lb hmem
                  simp only [List.append_assoc, List.mem_append, List.mem_singleton] at hmem
                  rcases hmem with hm | hm | hm
                  · have := hlb1 lb hm
                    simp only []
                    omega
                  · have := hlb2 lb hm
                    simp only []
                    omega
                  · exact absurd hm (by simp)
      | multiply =>
          cases hs1 : genExpr l st with
          | error err =>
              rw [genExpr] at h
              all_goals try (intro hfalse; exact absurd hfalse (by simp))
              simp [Bind.bind, Except.bind, hs1] at h
          | ok p =>
              obtain ⟨s1, is1, st1⟩ := p
              cases hs2 : genExpr r st1 with
              | error err =>
                  rw [genExpr] at h
                  all_goals try (intro hfalse; exact absurd hfalse (by simp))
                  simp [Bind.bind, Except.bind, hs1, hs2] at h
              | ok q =>
                  obtain ⟨s2, is2, st2⟩ := q
                  rw [genExpr] at h
                  all_goals try (intro hfalse; exact absurd hfalse (by simp))
                  simp only [Bind.bind, Except.bind, hs1, hs2, make_temporary,
                    convert_binaryop, pure, Except.pure, Except.ok.injEq,
                    Prod.mk.injEq] at h
                  obtain ⟨h1, h2, h3⟩ := h
                  subst h2
                  subst h3
                  obtain ⟨hm1, hlb1⟩ := ihl st s1 is1 st1 hs1
                  obtain ⟨hm2, hlb2⟩ := ihr st1 s2 is2 st2 hs2
                  refine ⟨by simp only []; omega, ?_⟩
                  intro lb hmem
                  simp only [List.append_assoc, List.mem_append, List.mem_singleton] at hmem
                  rcases hmem with hm | hm | hm
                  · have := hlb1 lb hm
                    simp only []
                    omega
                  · have := hlb2 lb hm
                    simp only []
                    omega
                  · exact absurd hm (by simp)
      | divide =>
          cases hs1 : genExpr l st with
          | error err =>
              rw [genExpr] at h
              all_goals try (intro hfalse; exact absurd hfalse (by simp))
              simp [Bind.bind, Except.bind, hs1] at h
          | ok p =>
              obtain ⟨s1, is1, st1⟩ := p
              cases hs2 : genExpr r st1 with
              | error err =>
                  rw [genExpr] at h
                  all_goals try (intro hfalse; exact absurd hfalse (by simp))
                  simp [Bind.bind, Except.bind, hs1, hs2] at h
              | ok q =>
                  obtain ⟨s2, is2, st2⟩ := q
                  rw [genExpr] at h
                  all_goals try (intro hfalse; exact absurd hfalse (by simp))
                  simp only [Bind.bind, Except.bind, hs1, hs2, make_temporary,
                    convert_binaryop, pure, Except.pure, Except.ok.injEq,
                    Prod.mk.injEq] at h
                  obtain ⟨h1, h2, h3⟩ := h
                  subst h2
                  subst h3
                  obtain ⟨hm1, hlb1⟩ := ihl st s1 is1 st1 hs1
                  obtain ⟨hm2, hlb2⟩ := ihr st1 s2 is2 st2 hs2
                  refine ⟨by simp only []; omega, ?_⟩
                  intro lb hmem
                  simp only [List.append_assoc, List.mem_append, List.mem_singleton] at hmem
                  rcases hmem with hm | hm | hm
                  · have := hlb1 lb hm
                    simp only []
                    omega
                  · have := hlb2 lb hm
                    simp only []
                    omega
                  · exact absurd hm (by simp)
      | remainder =>
          cases hs1 : genExpr l st with
          | error err =>
              rw [genExpr] at h
              all_goals try (intro hfalse; exact absurd hfalse (by simp))
              simp [Bind.bind, Except.bind, hs1] at h
          | ok p =>
              obtain ⟨s1, is1, st1⟩ := p
              cases hs2 : genExpr r st1 with
              | error err =>
                  rw [genExpr] at h
                  all_goals try (intro hfalse; exact absurd hfalse (by simp))
                  simp [Bind.bind, Except.bind, hs1, hs2] at h
              | ok q =>
                  obtain ⟨s2, is2, st2⟩ := q
                  rw [genExpr] at h
                  all_goals try (intro hfalse; exact absurd hfalse (by simp))
                  simp only [Bind.bind, Except.bind, hs1, hs2, make_temporary,
                    convert_binaryop, pure, Except.pure, Except.ok.injEq,
                    Prod.mk.injEq] at h
                  obtain ⟨h1, h2, h3⟩ := h
                  subst h2
                  subst h3
                  obtain ⟨hm1, hlb1⟩ := ihl st s1 is1 st1 hs1
                  obtain ⟨hm2, hlb2⟩ := ihr st1 s2 is2 st2 hs2
                  refine ⟨by simp only []; omega, ?_⟩
                  intro lb hmem
                  simp only [List.append_assoc, List.mem_append, List.mem_singleton] at hmem
                  rcases hmem with hm | hm | hm
                  · have := hlb1 lb hm
                    simp only []
                    omega
                  · have := hlb2 lb hm
                    simp only []
                    omega
                  · exact absurd hm (by simp)
      | equal =>
          cases hs1 : genExpr l st with
          | error err =>
              rw [genExpr] at h
              all_goals try (intro hfalse; exact absurd hfalse (by simp))
              simp [Bind.bind, Except.bind, hs1] at h
          | ok p =>
              obtain ⟨s1, is1, st1⟩ := p
              cases hs2 : genExpr r st1 with
              | error err =>
                  rw [genExpr] at h
                  all_goals try (intro hfalse; exact absurd hfalse (by simp))
                  simp [Bind.bind, Except.bind, hs1, hs2] at h
              | ok q =>
                  obtain ⟨s2, is2, st2⟩ := q
                  rw [genExpr] at h
                  all_goals try (intro hfalse; exact absurd hfalse (by simp))
                  simp only [Bind.bind, Except.bind, hs1, hs2, make_temporary,
                    convert_binaryop, pure, Except.pure, Except.ok.injEq,
                    Prod.mk.injEq] at h
                  obtain ⟨h1, h2, h3⟩ := h
                  subst h2
                  subst h3
                  obtain ⟨hm1, hlb1⟩ := ihl st s1 is1 st1 hs1
                  obtain ⟨hm2, hlb2⟩ := ihr st1 s2 is2 st2 hs2
                  refine ⟨by simp only []; omega, ?_⟩
                  intro lb hmem
                  simp only [List.append_assoc, List.mem_append, List.mem_singleton] at hmem
                  rcases hmem with hm | hm | hm
                  · have := hlb1 lb hm
                    simp only []
                    omega
                  · have := hlb2 lb hm
                    simp only []
                    omega
                  · exact absurd hm (by simp)
      | notEqual =>
          cases hs1 : genExpr l st with
          | error err =>
              rw [genExpr] at h
              all_goals try (intro hfalse; exact absurd hfalse (by simp))
              simp [Bind.bind, Except.bind, hs1] at h
          | ok p =>
              obtain ⟨s1, is1, st1⟩ := p
              cases hs2 : genExpr r st1 with
              | error err =>
                  rw [genExpr] at h
                  all_goals try (intro hfalse; exact absurd hfalse (by simp))
                  simp [Bind.bind, Except.bind, hs1, hs2] at h
              | ok q =>
                  obtain ⟨s2, is2, st2⟩ := q
                  rw [genExpr] at h
                  all_goals try (intro hfalse; exact absurd hfalse (by simp))
                  simp only [Bind.bind, Except.bind, hs1, hs2, make_temporary,
                    convert_binaryop, pure, Except.pure, Except.ok.injEq,
                    Prod.mk.injEq] at h
                  obtain ⟨h1, h2, h3⟩ := h
                  subst h2
                  subst h3
                  obtain ⟨hm1, hlb1⟩ := ihl st s1 is1 st1 hs1
                  obtain ⟨hm2, hlb2⟩ := ihr st1 s2 is2 st2 hs2
                  refine ⟨by simp only []; omega, ?_⟩
                  intro lb hmem
                  simp only [List.append_assoc, List.mem_append, List.mem_singleton] at hmem
                  rcases hmem with hm | hm | hm
                  · have := hlb1 lb hm
                    simp only []
                    omega
                  · have := hlb2 lb hm
                    simp only []
                    omega
                  · exact absurd hm (by simp)
      | lessThan =>
          cases hs1 : genExpr l st with
          | error err =>
              rw [genExpr] at h
              all_goals try (intro hfalse; exact absurd hfalse (by simp))
              simp [Bind.bind, Except.bind, hs1] at h
          | ok p =>
              obtain ⟨s1, is1, st1⟩ := p
              cases hs2 : genExpr r st1 with
              | error err =>
                  rw [genExpr] at h
                  all_goals try (intro hfalse; exact absurd hfalse (by simp))
                  simp [Bind.bind, Except.bind, hs1, hs2] at h
              | ok q =>
                  obtain ⟨s2, is2, st2⟩ := q
                  rw [genExpr] at h
                  all_goals try (intro hfalse; exact absurd hfalse (by simp))
                  simp only [Bind.bind, Except.bind, hs1, hs2, make_temporary,
                    convert_binaryop, pure, Except.pure, Except.ok.injEq,
                    Prod.mk.injEq] at h
                  obtain ⟨h1, h2, h3⟩ := h
                  subst h2
                  subst h3
                  obtain ⟨hm1, hlb1⟩ := ihl st s1 is1 st1 hs1
                  obtain ⟨hm2, hlb2⟩ := ihr st1 s2 is2 st2 hs2
                  refine ⟨by simp only []; omega, ?_⟩
                  intro lb hmem
                  simp only [List.append_assoc, List.mem_append, List.mem_singleton] at hmem
                  rcases hmem with hm | hm | hm
                  · have := hlb1 lb hm
                    simp only []
                    omega
                  · have := hlb2 lb hm
                    simp only []
                    omega
                  · exact absurd hm (by simp)
      | lessOrEqual =>
          cases hs1 : genExpr l st with
          | error err =>
              rw [genExpr] at h
              all_goals try (intro hfalse; exact absurd hfalse (by simp))
              simp [Bind.bind, Except.bind, hs1] at h
          | ok p =>
              obtain ⟨s1, is1, st1⟩ := p
              cases hs2 : genExpr r st1 with
              | error err =>
                  rw [genExpr] at h
                  all_goals try (intro hfalse; exact absurd hfalse (by simp))
                  simp [Bind.bind, Except.bind, hs1, hs2] at h
              | ok q =>
                  obtain ⟨s2, is2, st2⟩ := q
                  rw [genExpr] at h
                  all_goals try (intro hfalse; exact absurd hfalse (by simp))
                  simp only [Bind.bind, Except.bind, hs1, hs2, make_temporary,
                    convert_binaryop, pure, Except.pure, Except.ok.injEq,
                    Prod.mk.injEq] at h
                  obtain ⟨h1, h2, h3⟩ := h
                  subst h2
                  subst h3
                  obtain ⟨hm1, hlb1⟩ := ihl st s1 is1 st1 hs1
                  obtain ⟨hm2, hlb2⟩ := ihr st1 s2 is2 st2 hs2
                  refine ⟨by simp only []; omega, ?_⟩
                  intro lb hmem
                  simp only [List.append_assoc, List.mem_append, List.mem_singleton] at hmem
                  rcases hmem with hm | hm | hm
                  · have := hlb1 lb hm
                    simp only []
                    omega
                  · have := hlb2 lb hm
                    simp only []
                    omega
                  · exact absurd hm (by simp)
      | greaterThan =>
          cases hs1 : genExpr l st with
          | error err =>
              rw [genExpr] at h
              all_goals try (intro hfalse; exact absurd hfalse (by simp))
              simp [Bind.bind, Except.bind, hs1] at h
          | ok p =>
              obtain ⟨s1, is1, st1⟩ := p
              cases hs2 : genExpr r st1 with
              | error err =>
                  rw [genExpr] at h
                  all_goals try (intro hfalse; exact absurd hfalse (by simp))
                  simp [Bind.bind, Except.bind, hs1, hs2] at h
              | ok q =>
                  obtain ⟨s2, is2, st2⟩ := q
                  rw [genExpr] at h
                  all_goals try (intro hfalse; exact absurd hfalse (by simp))
                  simp only [Bind.bind, Except.bind, hs1, hs2, make_temporary,
                    convert_binaryop, pure, Except.pure, Except.ok.injEq,
                    Prod.mk.injEq] at h
                  obtain ⟨h1, h2, h3⟩ := h
                  subst h2
                  subst h3
                  obtain ⟨hm1, hlb1⟩ := ihl st s1 is1 st1 hs1
                  obtain ⟨hm2, hlb2⟩ := ihr st1 s2 is2 st2 hs2
                  refine ⟨by simp only []; omega, ?_⟩
                  intro lb hmem
                  simp only [List.append_assoc, List.mem_append, List.mem_singleton] at hmem
                  rcases hmem with hm | hm | hm
                  · have := hlb1 lb hm
                    simp only []
                    omega
                  · have := hlb2 lb hm
                    simp only []
                    omega
                  · exact absurd hm (by simp)
      | greaterOrEqual =>
          cases hs1 : genExpr l st with
          | error err =>
              rw [genExpr] at h
              all_goals try (intro hfalse; exact absurd hfalse (by simp))
              simp [Bind.bind, Except.bind, hs1] at h
          | ok p =>
              obtain ⟨s1, is1, st1⟩ := p
              cases hs2 : genExpr r st1 with
              | error err =>
                  rw [genExpr] at h
                  all_goals try (intro hfalse; exact absurd hfalse (by simp))
                  simp [Bind.bind, Except.bind, hs1, hs2] at h
              | ok q =>
                  obtain ⟨s2, is2, st2⟩ := q
                  rw [genExpr] at h
                  all_goals try (intro hfalse; exact absurd hfalse (by simp))
                  simp only [Bind.bind, Except.bind, hs1, hs2, make_temporary,
                    convert_binaryop, pure, Except.pure, Except.ok.injEq,
                    Prod.mk.injEq] at h
                  obtain ⟨h1, h2, h3⟩ := h
                  subst h2
                  subst h3
                  obtain ⟨hm1, hlb1⟩ := ihl st s1 is1 st1 hs1
                  obtain ⟨hm2, hlb2⟩ := ihr st1 s2 is2 st2 hs2
                  refine ⟨by simp only []; omega, ?_⟩
                  intro lb hmem
                  simp only [List.append_assoc, List.mem_append, List.mem_singleton] at hmem
                  rcases hmem with hm | hm | hm
                  · have := hlb1 lb hm
                    simp only []
                    omega
                  · have := hlb2 lb hm
                    simp only []
                    omega
                  · exact absurd hm (by simp)
  | conditional c l r ihc ihl ihr =>
      intro st v is st' h
      cases hs0 : genExpr c ⟨st.idGen + 1, st.labelCtr + 1 + 1⟩ with
      | error err =>
          rw [genExpr] at h
          simp [Bind.bind, Except.bind, make_temporary, hs0] at h
      | ok p0 =>
          obtain ⟨cv, is0, st4⟩ := p0
          cases hs1 : genExpr l st4 with
          | error err =>
              rw [genExpr] at h
              simp [Bind.bind, Except.bind, make_temporary, hs0, hs1] at h
          | ok p1 =>
              obtain ⟨tv, is1, st5⟩ := p1
              cases hs2 : genExpr r st5 with
              | error err =>
                  rw [genExpr] at h
                  simp [Bind.bind, Except.bind, make_temporary, hs0, hs1, hs2] at h
              | ok p2 =>
                  obtain ⟨ev, is2, st6⟩ := p2
                  rw [genExpr] at h
                  simp only [Bind.bind, Except.bind, make_temporary, hs0, hs1, hs2,
                    pure, Except.pure, Except.ok.injEq, Prod.mk.injEq] at h
                  obtain ⟨h1, h2, h3⟩ := h
                  subst h2
                  subst h3
                  obtain ⟨hm0, hlb0⟩ := ihc ⟨st.idGen + 1, st.labelCtr + 1 + 1⟩ cv is0 st4 hs0
                  obtain ⟨hm1, hlb1⟩ := ihl st4 tv is1 st5 hs1
                  obtain ⟨hm2, hlb2⟩ := ihr st5 ev is2 st6 hs2
                  simp only [] at hm0
                  refine ⟨by omega, ?_⟩
                  intro lb hmem
                  have hcase : TInstr.labelI lb ∈ is0 ∨ TInstr.labelI lb ∈ is1 ∨
                      TInstr.labelI lb ∈ is2 ∨ lb = Lbl.condElse st.labelCtr ∨
                      lb = Lbl.condEnd (st.labelCtr + 1) := by
                    simp at hmem
                    tauto
                  rcases hcase with hm | hm | hm | rfl | rfl
                  · have := hlb0 lb hm
                    simp only [] at this
                    omega
                  · have := hlb1 lb hm
                    omega
                  · have := hlb2 lb hm
                    omega
                  · simp only [ctrOf]
                    omega
                  · simp only [ctrOf]
                    omega

end TG

namespace TG

theorem step_jumpIfZero_taken (code : List TInstr) (pc : Nat) (env : Env)
    (v : Tacky.Val) (l : Lbl)
    (hfetch : code[pc]? = some (TInstr.jumpIfZero v l)) (hv : evalVal env v = 0) :
    step code (pc, env) = (findLabel code l).map (fun j => (j, env)) := by
  unfold step
  simp only [hfetch, hv, if_pos]

/-- C3: lowering `a && b` emits, in order, the instructions of the left
operand, a jump-if-zero to the fresh `and_false` label, the instructions
of the right operand, a jump-if-zero to the same label, the copy of 1 into
the fresh result temporary followed by a jump to the `and_end` label, the
`and_false` label with the copy of 0, then the `and_end` label.
Consequently, when the left operand's value is 0, one machine step from
the first jump transfers control directly to the `and_false` label at
index `|left| + |right| + 4`, past every instruction of the right operand
(indices `|left| + 1` to `|left| + |right|`), leaving the environment
untouched — the right operand is not on the necessarily-executed path. -/
theorem and_lowering_short_circuits
    (l r : Expr) (st st4 st5 : GenState) (v1 v2 : Tacky.Val)
    (is1 is2 : List TInstr)
    (hl : genExpr l ⟨st.idGen + 1, st.labelCtr + 1 + 1⟩ = Except.ok (v1, is1, st4))
    (hr : genExpr r st4 = Except.ok (v2, is2, st5)) :
    genExpr (Expr.binary U.BinaryOperator.andOp l r) st =
      Except.ok (Tacky.Val.var ("tmp." ++ toString st.idGen),
        is1 ++ [TInstr.jumpIfZero v1 (Lbl.andFalse st.labelCtr)] ++ is2 ++
        [TInstr.jumpIfZero v2 (Lbl.andFalse st.labelCtr),
         TInstr.copy (Tacky.Val.constant 1) (Tacky.Val.var ("tmp." ++ toString st.idGen)),
         TInstr.jump (Lbl.andEnd (st.labelCtr + 1)),
         TInstr.labelI (Lbl.andFalse st.labelCtr),
         TInstr.copy (Tacky.Val.constant 0) (Tacky.Val.var ("tmp." ++ toString st.idGen)),
         TInstr.labelI (Lbl.andEnd (st.labelCtr + 1))], st5) ∧
    (∀ env : Env, evalVal env v1 = 0 →
      step (is1 ++ [TInstr.jumpIfZero v1 (Lbl.andFalse st.labelCtr)] ++ is2 ++
        [TInstr.jumpIfZero v2 (Lbl.andFalse st.labelCtr),
         TInstr.copy (Tacky.Val.constant 1) (Tacky.Val.var ("tmp." ++ toString st.idGen)),
         TInstr.jump (Lbl.andEnd (st.labelCtr + 1)),
         TInstr.labelI (Lbl.andFalse st.labelCtr),
         TInstr.copy (Tacky.Val.constant 0) (Tacky.Val.var ("tmp." ++ toString st.idGen)),
         TInstr.labelI (Lbl.andEnd (st.labelCtr + 1))]) (is1.length, env) =
        some (is1.length + is2.length + 4, env)) ∧
    is1.length + 1 + is2.length ≤ is1.length + is2.length + 4 := by
  obtain ⟨hm1, hlb1⟩ := genExpr_fresh l ⟨st.idGen + 1, st.labelCtr + 1 + 1⟩ v1 is1 st4 hl
  obtain ⟨hm2, hlb2⟩ := genExpr_fresh r st4 v2 is2 st5 hr
  simp only [] at hm1
  refine ⟨?_, ?_, by omega⟩
  · rw [genExpr]
    simp only [Bind.bind, Except.bind, make_temporary, hl, hr, pure, Except.pure]
  · intro env hv
    set FL := Lbl.andFalse st.labelCtr with hFL
    set EL := Lbl.andEnd (st.labelCtr + 1) with hEL
    set res := Tacky.Val.var ("tmp." ++ toString st.idGen) with hres
    set code := is1 ++ [TInstr.jumpIfZero v1 FL] ++ is2 ++
      [TInstr.jumpIfZero v2 FL, TInstr.copy (Tacky.Val.constant 1) res,
       TInstr.jump EL, TInstr.labelI FL, TInstr.copy (Tacky.Val.constant 0) res,
       TInstr.labelI EL] with hcode
    have hfetch : code[is1.length]? = some (TInstr.jumpIfZero v1 FL) := by
      rw [hcode]
      simp only [List.append_assoc]
      rw [List.getElem?_append_right (le_refl is1.length)]
      simp
    have hnotin : TInstr.labelI FL ∉
        is1 ++ [TInstr.jumpIfZero v1 FL] ++ is2 ++
        [TInstr.jumpIfZero v2 FL, TInstr.copy (Tacky.Val.constant 1) res,
         TInstr.jump EL] := by
      intro hmem
      have hcases : TInstr.labelI FL ∈ is1 ∨ TInstr.labelI FL ∈ is2 := by
        simp at hmem
        tauto
      rcases hcases with hm | hm
      · have := hlb1 FL hm
        simp [ctrOf, hFL] at this
        omega
      · have := hlb2 FL hm
        simp [ctrOf, hFL] at this
        omega
    have hsplit : code =
        (is1 ++ [TInstr.jumpIfZero v1 FL] ++ is2 ++
          [TInstr.jumpIfZero v2 FL, TInstr.copy (Tacky.Val.constant 1) res,
           TInstr.jump EL]) ++
        (TInstr.labelI FL :: [TInstr.copy (Tacky.Val.constant 0) res,
          TInstr.labelI EL]) := by
      rw [hcode]
      simp
    have hfind : findLabel code FL =
        some (is1.length + is2.length + 4) := by
      rw [hsplit, findLabel_append_of_notin _ _ _ hnotin]
      show (match findLabel (TInstr.labelI FL :: _) FL with
        | some j => some ((is1 ++ [TInstr.jumpIfZero v1 FL] ++ is2 ++ _).length + j)
        | none => none) = _
      rw [findLabel]
      simp only [if_pos rfl]
      simp [List.length_append]
      omega
    rw [step_jumpIfZero_taken code is1.length env v1 FL hfetch hv, hfind]
    rfl

/-- Witness for C3: `0 && (x = 1)` from a fresh generator; the left value
is 0, so the step from the first jump lands on the `and_false` label at
index 5, skipping the right operand's side-effecting copy at index 1. -/
theorem and_lowering_short_circuits_witness :
    genExpr (Expr.binary U.BinaryOperator.andOp (Expr.constant 0)
        (Expr.assign (Expr.var ("x")) (Expr.constant 1))) ⟨0, 0⟩ =
      Except.ok (Tacky.Val.var ("tmp.0"),
        [TInstr.jumpIfZero (Tacky.Val.constant 0) (Lbl.andFalse 0),
         TInstr.copy (Tacky.Val.constant 1) (Tacky.Val.var ("x")),
         TInstr.jumpIfZero (Tacky.Val.constant 1) (Lbl.andFalse 0),
         TInstr.copy (Tacky.Val.constant 1) (Tacky.Val.var ("tmp.0")),
         TInstr.jump (Lbl.andEnd 1),
         TInstr.labelI (Lbl.andFalse 0),
         TInstr.copy (Tacky.Val.constant 0) (Tacky.Val.var ("tmp.0")),
         TInstr.labelI (Lbl.andEnd 1)], ⟨1, 2⟩) ∧
    step [TInstr.jumpIfZero (Tacky.Val.constant 0) (Lbl.andFalse 0),
         TInstr.copy (Tacky.Val.constant 1) (Tacky.Val.var ("x")),
         TInstr.jumpIfZero (Tacky.Val.constant 1) (Lbl.andFalse 0),
         TInstr.copy (Tacky.Val.constant 1) (Tacky.Val.var ("tmp.0")),
         TInstr.jump (Lbl.andEnd 1),
         TInstr.labelI (Lbl.andFalse 0),
         TInstr.copy (Tacky.Val.constant 0) (Tacky.Val.var ("tmp.0")),
         TInstr.labelI (Lbl.andEnd 1)] (0, fun _ => 0) =
      some (5, fun _ => 0) := by
  have h := and_lowering_short_circuits (Expr.constant 0)
    (Expr.assign (Expr.var ("x")) (Expr.constant 1)) ⟨0, 0⟩ ⟨1, 2⟩ ⟨1, 2⟩
    (Tacky.Val.constant 0) (Tacky.Val.constant 1) []
    [TInstr.copy (Tacky.Val.constant 1) (Tacky.Val.var ("x"))] rfl rfl
  exact ⟨h.1, h.2.1 (fun _ => 0) rfl⟩

end TG
